import Mathlib

-- Verification of the bpns core: a shallow embedding of the notification
-- store (src/core/db/mod.rs), the block/mempool processor and transaction
-- classifier (src/core/bitcoin/processor.rs), the address-derivation
-- subsystem (src/core/bitcoin/address.rs) and the Core API facade
-- (src/core/api.rs), together with the utility functions they use
-- (src/util/mod.rs, src/util/hash.rs, src/util/convert.rs).

namespace BPNS

-- Rust strings are modelled as lists of characters; byte-level operations
-- (String::len, slicing) go through an explicit UTF-8 encoding.
abbrev Str := List Char

def S (s : String) : Str := s.data

-- UTF-8 encoding of a single char, as in Rust char::encode_utf8.
def charUtf8 (c : Char) : List Nat :=
  let n := c.toNat
  if n < 128 then [n]
  else if n < 2048 then [192 + n / 64, 128 + n % 64]
  else if n < 65536 then [224 + n / 4096, 128 + n / 64 % 64, 128 + n % 64]
  else [240 + n / 262144, 128 + n / 4096 % 64, 128 + n / 64 % 64, 128 + n % 64]

def utf8Encode (s : Str) : List Nat := (s.map charUtf8).flatten

-- Rust String::len: the number of UTF-8 bytes.
def utf8Len (s : Str) : Nat := (utf8Encode s).length

theorem utf8Encode_cons (c : Char) (t : Str) :
    utf8Encode (c :: t) = charUtf8 c ++ utf8Encode t := by
  simp [utf8Encode]

-- ### Key-value partitions (the embedded key-value store adapter)
-- A partition is a sequence of (key, value) pairs with the put/get/delete
-- semantics of a key-value store: put upserts, get finds, delete removes.

def lookupKV {α : Type} (k : Str) (l : List (Str × α)) : Option α :=
  (l.find? (fun p => p.1 == k)).map Prod.snd

def putKV {α : Type} (k : Str) (v : α) (l : List (Str × α)) : List (Str × α) :=
  if l.any (fun p => p.1 == k) then
    l.map (fun p => if p.1 == k then (k, v) else p)
  else
    l ++ [(k, v)]

def deleteKV {α : Type} (k : Str) (l : List (Str × α)) : List (Str × α) :=
  l.filter (fun p => !(p.1 == k))

theorem mem_deleteKV {α : Type} {k : Str} {l : List (Str × α)} {p : Str × α} :
    p ∈ deleteKV k l ↔ p ∈ l ∧ p.1 ≠ k := by
  simp [deleteKV, List.mem_filter]

theorem putKV_comp_eq {α : Type} (k : Str) (v : α) :
    (fun p : Str × α => (if p.1 == k then (k, v) else p).1 == k)
      = (fun p : Str × α => p.1 == k) := by
  funext p
  by_cases hp : p.1 = k
  · simp [hp]
  · simp [hp]

theorem mem_putKV {α : Type} {k : Str} {v : α} {l : List (Str × α)} {p : Str × α}
    (h : p ∈ putKV k v l) : p = (k, v) ∨ (p ∈ l ∧ p.1 ≠ k) := by
  unfold putKV at h
  by_cases hc : l.any (fun p => p.1 == k)
  · rw [if_pos hc] at h
    rcases List.mem_map.mp h with ⟨q, hq, hqe⟩
    by_cases hk : q.1 = k
    · left
      rw [if_pos (by simpa using hk)] at hqe
      exact hqe.symm
    · right
      rw [if_neg (by simpa using hk)] at hqe
      exact ⟨hqe ▸ hq, hqe ▸ hk⟩
  · rw [if_neg hc] at h
    rcases List.mem_append.mp h with h1 | h1
    · right
      refine ⟨h1, ?_⟩
      simp only [List.any_eq_true, not_exists, not_and] at hc
      simpa using hc p h1
    · left; simpa using h1

theorem lookup_putKV_self {α : Type} (k : Str) (v : α) (l : List (Str × α)) :
    lookupKV k (putKV k v l) = some v := by
  unfold putKV lookupKV
  by_cases hc : l.any (fun p => p.1 == k)
  · rw [if_pos hc]
    rw [List.find?_map]
    have hfind : l.find? (fun p => p.1 == k) |>.isSome := by
      rw [List.find?_isSome]
      rcases List.any_eq_true.mp hc with ⟨x, hx, hxk⟩
      exact ⟨x, hx, hxk⟩
    rcases Option.isSome_iff_exists.mp hfind with ⟨q, hq⟩
    have hcomp : (fun p : Str × α => (if p.1 == k then (k, v) else p).1 == k)
        = (fun p : Str × α => p.1 == k) := putKV_comp_eq k v
    have : l.find? ((fun p : Str × α => p.1 == k) ∘
        (fun p => if p.1 == k then (k, v) else p)) = some q := by
      have : ((fun p : Str × α => p.1 == k) ∘ (fun p => if p.1 == k then (k, v) else p))
          = (fun p : Str × α => p.1 == k) := hcomp
      rw [this]; exact hq
    rw [this]
    have hqk := List.find?_some hq
    have hqe : q.1 = k := by simpa using hqk
    simp [Function.comp_def, hqe]
  · rw [if_neg hc]
    simp only [List.any_eq_true, not_exists, not_and] at hc
    have hnone : l.find? (fun p => p.1 == k) = none :=
      List.find?_eq_none.mpr (fun p hp => by simpa using hc p hp)
    rw [List.find?_append, hnone]
    simp [List.find?]

theorem keys_putKV_nodup {α : Type} {k : Str} {v : α} {l : List (Str × α)}
    (h : (l.map Prod.fst).Nodup) : ((putKV k v l).map Prod.fst).Nodup := by
  unfold putKV
  by_cases hc : l.any (fun p => p.1 == k)
  · rw [if_pos hc]
    have : (l.map (fun p => if p.1 == k then (k, v) else p)).map Prod.fst
        = l.map Prod.fst := by
      rw [List.map_map]
      apply List.map_congr_left
      intro p _
      by_cases hp : p.1 = k
      · simp [hp]
      · simp [hp]
    rw [this]; exact h
  · rw [if_neg hc]
    simp only [List.any_eq_true, not_exists, not_and] at hc
    rw [List.map_append]
    simp only [List.map_cons, List.map_nil]
    refine List.Nodup.append h (List.nodup_singleton k) ?_
    intro x hx hy
    rcases List.mem_map.mp hx with ⟨p, hp, rfl⟩
    have hk : p.1 = k := by simpa using hy
    exact (hc p hp) (by simp [hk])

theorem filter_key_singleton {α : Type} {k : Str} {l : List (Str × α)} {q : Str × α}
    (h : (l.map Prod.fst).Nodup) (hq : q ∈ l) (hqk : q.1 = k) :
    l.filter (fun p => p.1 == k) = [q] := by
  induction l with
  | nil => simp at hq
  | cons a t ih =>
    rw [List.map_cons, List.nodup_cons] at h
    rcases List.mem_cons.mp hq with rfl | hq2
    · have ht : ∀ p ∈ t, ¬(p.1 == k) = true := by
        intro p hp hpk
        apply h.1
        have hpk2 : p.1 = k := by simpa using hpk
        rw [hqk, ← hpk2]
        exact List.mem_map.mpr ⟨p, hp, rfl⟩
      have htf : t.filter (fun p => p.1 == k) = [] :=
        List.filter_eq_nil_iff.mpr ht
      simp [List.filter_cons, hqk, htf]
    · have hak : ¬(a.1 == k) = true := by
        intro hpk
        apply h.1
        have hpk2 : a.1 = k := by simpa using hpk
        rw [hpk2, ← hqk]
        exact List.mem_map.mpr ⟨q, hq2, rfl⟩
      have := ih h.2 hq2
      simp [List.filter_cons, hak, this]

theorem filter_putKV {α : Type} {k : Str} {v : α} {l : List (Str × α)}
    (h : (l.map Prod.fst).Nodup) :
    (putKV k v l).filter (fun p => p.1 == k) = [(k, v)] := by
  have hmem : (k, v) ∈ putKV k v l := by
    unfold putKV
    by_cases hc : l.any (fun p => p.1 == k)
    · rw [if_pos hc]
      rcases List.any_eq_true.mp hc with ⟨x, hx, hxk⟩
      refine List.mem_map.mpr ⟨x, hx, ?_⟩
      rw [if_pos hxk]
    · rw [if_neg hc]
      simp
  exact filter_key_singleton (keys_putKV_nodup h) hmem rfl

-- ### src/util/mod.rs: is_token

def tokenChars : Str :=
  ['A', 'B', 'C', 'D', 'E', 'F', 'a', 'b', 'c', 'd', 'e', 'f',
   '0', '1', '2', '3', '4', '5', '6', '7', '8', '9']

-- util::is_token: length (in bytes, Rust String::len) at least 50 and
-- every character drawn from CHARS.
def is_token (token : Str) : Bool :=
  if utf8Len token < 50 then false
  else token.all (fun c => tokenChars.contains c)

-- The character class of the specification regex [0-9A-Fa-f].
def hexClass : Str :=
  ['0', '1', '2', '3', '4', '5', '6', '7', '8', '9',
   'A', 'B', 'C', 'D', 'E', 'F', 'a', 'b', 'c', 'd', 'e', 'f']

-- Modelled from the spec: the property of matching the token regular
-- expression stated in the spec, hex of length at least 50.
def matchesHexAtLeast50 (s : Str) : Prop :=
  50 ≤ s.length ∧ ∀ c ∈ s, c ∈ hexClass

theorem mem_tokenChars_iff (c : Char) : c ∈ tokenChars ↔ c ∈ hexClass := by
  constructor
  · intro h
    simp only [tokenChars, List.mem_cons, List.not_mem_nil, or_false] at h
    rcases h with rfl | rfl | rfl | rfl | rfl | rfl | rfl | rfl | rfl | rfl | rfl |
      rfl | rfl | rfl | rfl | rfl | rfl | rfl | rfl | rfl | rfl | rfl <;> decide
  · intro h
    simp only [hexClass, List.mem_cons, List.not_mem_nil, or_false] at h
    rcases h with rfl | rfl | rfl | rfl | rfl | rfl | rfl | rfl | rfl | rfl | rfl |
      rfl | rfl | rfl | rfl | rfl | rfl | rfl | rfl | rfl | rfl | rfl <;> decide

theorem charUtf8_hex_length {c : Char} (h : c ∈ hexClass) : (charUtf8 c).length = 1 := by
  simp only [hexClass, List.mem_cons, List.not_mem_nil, or_false] at h
  rcases h with rfl | rfl | rfl | rfl | rfl | rfl | rfl | rfl | rfl | rfl | rfl |
    rfl | rfl | rfl | rfl | rfl | rfl | rfl | rfl | rfl | rfl | rfl <;> decide

theorem utf8Len_of_hex {s : Str} (h : ∀ c ∈ s, c ∈ hexClass) : utf8Len s = s.length := by
  induction s with
  | nil => rfl
  | cons c t ih =>
    have h1 : (charUtf8 c).length = 1 := charUtf8_hex_length (h c (by simp))
    have h2 := ih (fun x hx => h x (List.mem_cons_of_mem _ hx))
    unfold utf8Len at *
    rw [utf8Encode_cons, List.length_append, h1, h2]
    simp [Nat.add_comm]

theorem is_token_iff_matches (s : Str) : is_token s = true ↔ matchesHexAtLeast50 s := by
  constructor
  · intro h
    unfold is_token at h
    by_cases hl : utf8Len s < 50
    · rw [if_pos hl] at h; exact absurd h (by simp)
    · rw [if_neg hl] at h
      have hall : ∀ c ∈ s, c ∈ hexClass := by
        intro c hc
        have := List.all_eq_true.mp h c hc
        exact (mem_tokenChars_iff c).mp (by simpa [List.contains] using this)
      refine ⟨?_, hall⟩
      rw [← utf8Len_of_hex hall]; omega
  · rintro ⟨hl, hall⟩
    unfold is_token
    have hlen : utf8Len s = s.length := utf8Len_of_hex hall
    rw [if_neg (by omega)]
    rw [List.all_eq_true]
    intro c hc
    simpa [List.contains] using (mem_tokenChars_iff c).mpr (hall c hc)

-- ### src/core/db/mod.rs: data model and CoreStore state

inductive DbError
  | NotFound
  | AlreadyExist
  | InvalidValue
  | FailedToDeserialize
deriving DecidableEq

instance exceptDecEq {ε α : Type} [DecidableEq ε] [DecidableEq α] :
    DecidableEq (Except ε α) := fun x y =>
  match x, y with
  | .ok a, .ok b =>
    if h : a = b then isTrue (by rw [h]) else isFalse (fun hh => by cases hh; exact h rfl)
  | .error a, .error b =>
    if h : a = b then isTrue (by rw [h]) else isFalse (fun hh => by cases hh; exact h rfl)
  | .ok _, .error _ => isFalse (fun hh => by cases hh)
  | .error _, .ok _ => isFalse (fun hh => by cases hh)

structure Address where
  tokens : List Str
deriving DecidableEq

structure Notification where
  id : Str
  token : Str
  address : Str
  txid : Str
  txtype : Str
  amount : Nat
  confirmed : Bool
  timestamp : Nat
deriving DecidableEq

-- The four column families the claims touch: network (chain cursor),
-- token, address and notification.
structure CoreStoreState where
  network : List (Str × Str)
  token : List (Str × Str)
  address : List (Str × Address)
  notification : List (Str × Notification)
deriving DecidableEq

def emptyStore : CoreStoreState :=
  { network := [], token := [], address := [], notification := [] }

-- CoreStore::token_exist: get on the token partition, is_ok.
def token_exist (token : Str) (st : CoreStoreState) : Bool :=
  (lookupKV token st.token).isSome

-- CoreStore::create_token.
def create_token (token : Str) (st : CoreStoreState) : Except DbError CoreStoreState :=
  if ¬ is_token token then .error .InvalidValue
  else if token_exist token st then .error .AlreadyExist
  else .ok { st with token := putKV token [] st.token }

-- ### Decimal rendering and parsing (u32::to_string / str::parse)

def digitChar10 (d : Nat) : Char :=
  if d = 0 then '0' else if d = 1 then '1' else if d = 2 then '2'
  else if d = 3 then '3' else if d = 4 then '4' else if d = 5 then '5'
  else if d = 6 then '6' else if d = 7 then '7' else if d = 8 then '8' else '9'

def decDigitsAux : Nat → Nat → Str
  | 0, _ => []
  | f + 1, n => if n = 0 then [] else decDigitsAux f (n / 10) ++ [digitChar10 (n % 10)]

-- Rust integer to_string: decimal, no sign, no leading zeros.
def natToDec (n : Nat) : Str := if n = 0 then ['0'] else decDigitsAux n n

def decVal (c : Char) : Option Nat :=
  if c = '0' then some 0 else if c = '1' then some 1 else if c = '2' then some 2
  else if c = '3' then some 3 else if c = '4' then some 4 else if c = '5' then some 5
  else if c = '6' then some 6 else if c = '7' then some 7 else if c = '8' then some 8
  else if c = '9' then some 9 else none

def parseDigitsAux : Str → Nat → Option Nat
  | [], acc => some acc
  | c :: r, acc =>
    match decVal c with
    | none => none
    | some d => parseDigitsAux r (acc * 10 + d)

def stripPlus (s : Str) : Str :=
  match s with
  | c :: r => if c = '+' then r else c :: r
  | [] => []

-- Rust str::parse::<u32>: an optional leading plus sign, then at least one
-- decimal digit, and the value must fit in 32 bits.
def parseU32 (s : Str) : Option Nat :=
  let body := stripPlus s
  if body.isEmpty then none
  else
    match parseDigitsAux body 0 with
    | none => none
    | some n => if n < 2 ^ 32 then some n else none

theorem decVal_digitChar10 {d : Nat} (h : d < 10) : decVal (digitChar10 d) = some d := by
  interval_cases d <;> decide

theorem parseDigitsAux_append (xs ys : Str) (acc : Nat) :
    parseDigitsAux (xs ++ ys) acc =
      match parseDigitsAux xs acc with
      | none => none
      | some a => parseDigitsAux ys a := by
  induction xs generalizing acc with
  | nil => simp [parseDigitsAux]
  | cons c r ih =>
    simp only [List.cons_append, parseDigitsAux]
    cases decVal c with
    | none => simp
    | some d => simpa using ih (acc * 10 + d)

theorem parseDigitsAux_decDigitsAux (f : Nat) :
    ∀ n acc, n ≤ f →
      parseDigitsAux (decDigitsAux f n) acc =
        some (acc * 10 ^ (decDigitsAux f n).length + n) := by
  induction f with
  | zero =>
    intro n acc hn
    have : n = 0 := by omega
    subst this
    simp [decDigitsAux, parseDigitsAux]
  | succ f ih =>
    intro n acc hn
    by_cases h0 : n = 0
    · subst h0
      simp [decDigitsAux, parseDigitsAux]
    · have hdiv : n / 10 ≤ f := by
        have := Nat.div_lt_self (Nat.pos_of_ne_zero h0) (by norm_num : 1 < 10)
        omega
      simp only [decDigitsAux, if_neg h0]
      rw [parseDigitsAux_append]
      rw [ih (n / 10) acc hdiv]
      have hmod : n % 10 < 10 := Nat.mod_lt _ (by norm_num)
      simp only [parseDigitsAux, decVal_digitChar10 hmod]
      have hdm : n / 10 * 10 + n % 10 = n := by omega
      have hlen : (decDigitsAux f (n / 10) ++ [digitChar10 (n % 10)]).length
          = (decDigitsAux f (n / 10)).length + 1 := by simp
      rw [hlen]
      congr 1
      have : (acc * 10 ^ (decDigitsAux f (n / 10)).length + n / 10) * 10 + n % 10
          = acc * (10 ^ (decDigitsAux f (n / 10)).length * 10)
            + (n / 10 * 10 + n % 10) := by ring
      rw [this, hdm, pow_succ]

theorem digitChar10_ne_plus (d : Nat) : digitChar10 d ≠ '+' := by
  unfold digitChar10
  repeat' split
  all_goals decide

theorem decDigitsAux_head_digit (f n : Nat) (hn : n ≠ 0) (hf : n ≤ f) :
    ∃ d r, decDigitsAux f n = digitChar10 d :: r := by
  induction f generalizing n with
  | zero => omega
  | succ f ih =>
    simp only [decDigitsAux, if_neg hn]
    by_cases h0 : n / 10 = 0
    · rw [h0]
      cases f with
      | zero => exact ⟨n % 10, [], rfl⟩
      | succ f2 => exact ⟨n % 10, [], by simp [decDigitsAux]⟩
    · have hdiv : n / 10 ≤ f := by
        have := Nat.div_lt_self (Nat.pos_of_ne_zero hn) (by norm_num : 1 < 10)
        omega
      rcases ih (n / 10) h0 hdiv with ⟨d, r, hr⟩
      exact ⟨d, r ++ [digitChar10 (n % 10)], by rw [hr]; simp⟩

theorem parseU32_natToDec {n : Nat} (h : n < 2 ^ 32) : parseU32 (natToDec n) = some n := by
  by_cases h0 : n = 0
  · subst h0; decide
  · unfold natToDec
    rw [if_neg h0]
    rcases decDigitsAux_head_digit n n h0 (le_refl n) with ⟨d, r, hr⟩
    unfold parseU32
    have hstrip : stripPlus (decDigitsAux n n) = decDigitsAux n n := by
      rw [hr]
      simp [stripPlus, digitChar10_ne_plus d]
    rw [hstrip]
    have hne : (decDigitsAux n n).isEmpty = false := by
      rw [hr]; rfl
    simp only [hne, Bool.false_eq_true, if_false]
    rw [parseDigitsAux_decDigitsAux n n 0 (le_refl n)]
    simp
    omega

-- ### Chain cursor (CoreStore::get/set_last_processed_block)

def lpbKey : Str := S ("last_processed_block")

-- get: read the network partition and parse the stored decimal string;
-- both a missing key and an unparsable value surface as an error.
def get_last_processed_block (st : CoreStoreState) : Option Nat :=
  match lookupKV lpbKey st.network with
  | none => none
  | some s => parseU32 s

def set_last_processed_block (h : Nat) (st : CoreStoreState) : CoreStoreState :=
  { st with network := putKV lpbKey (natToDec h) st.network }

theorem get_set_last_processed_block (h : Nat) (st : CoreStoreState) (hlt : h < 2 ^ 32) :
    get_last_processed_block (set_last_processed_block h st) = some h := by
  unfold get_last_processed_block set_last_processed_block
  simp only [lookup_putKV_self]
  exact parseU32_natToDec hlt

-- ### src/core/bitcoin/processor.rs: the block_processor loop body
-- One iteration of the loop in Processor::run. The RPC tip is an input
-- (none models an RPC error), as is whether Self::process_block succeeds.
-- OFFSET = 5; u32 arithmetic wraps.

inductive StepOutcome
  | rpcFailed
  | initialized
  | waited
  | processed
  | blockFailed
deriving DecidableEq

def blockStep (tip : Option Nat) (ok : Bool) (st : CoreStoreState) :
    CoreStoreState × StepOutcome :=
  match tip with
  | none => (st, .rpcFailed)
  | some t =>
    let bh := (t + 2 ^ 32 - 5) % 2 ^ 32
    match get_last_processed_block st with
    | none => (set_last_processed_block bh st, .initialized)
    | some l =>
      if bh ≤ l then (st, .waited)
      else if ok then (set_last_processed_block ((l + 1) % 2 ^ 32) st, .processed)
      else (st, .blockFailed)

def countOne : StepOutcome → Nat
  | .processed => 1
  | _ => 0

-- A sequence of loop iterations; returns the final state and the number
-- of successfully processed blocks.
def runBlockLoop : List (Option Nat × Bool) → CoreStoreState → CoreStoreState × Nat
  | [], st => (st, 0)
  | (t, ok) :: rest, st =>
    let r := blockStep t ok st
    let r2 := runBlockLoop rest r.1
    (r2.1, r2.2 + countOne r.2)

def tok64 : Str := List.replicate 64 'a'

def storeWithTok64 : CoreStoreState := { emptyStore with token := [(tok64, [])] }

set_option maxRecDepth 100000 in
/-- Claim C3, counterexample: the claim says create_token succeeds for every
string matching the token regex, but on a store already holding the
64-character hex token it fails with AlreadyExist. -/
theorem create_token_counterexample :
    create_token tok64 storeWithTok64 = .error DbError.AlreadyExist ∧
      matchesHexAtLeast50 tok64 := by
  constructor
  · decide
  · unfold matchesHexAtLeast50
    decide

/-- Claim C3 (amended): create_token(s) succeeds if and only if s matches
the hex-of-length-at-least-50 regex and s is not already present in the
token partition. -/
theorem create_token_ok_iff (t : Str) (st : CoreStoreState) :
    (∃ st2, create_token t st = .ok st2) ↔
      (matchesHexAtLeast50 t ∧ lookupKV t st.token = none) := by
  unfold create_token token_exist
  by_cases h1 : is_token t
  · rw [if_neg (by simp [h1])]
    by_cases h2 : (lookupKV t st.token).isSome
    · rw [if_pos h2]
      constructor
      · rintro ⟨st2, hst⟩
        simp at hst
      · rintro ⟨_, hnone⟩
        rw [hnone] at h2
        simp at h2
    · rw [if_neg h2]
      constructor
      · intro _
        exact ⟨(is_token_iff_matches t).mp h1, Option.not_isSome_iff_eq_none.mp h2⟩
      · intro _
        exact ⟨_, rfl⟩
  · rw [if_pos (by simp [h1])]
    constructor
    · rintro ⟨st2, hst⟩
      simp at hst
    · rintro ⟨hm, _⟩
      exact absurd ((is_token_iff_matches t).mpr hm) h1

/-- Claim C5: starting from a state whose cursor holds l, after any sequence
of block-processor iterations the cursor holds exactly l plus the number of
successfully processed blocks; each successful pass advances it by exactly
one, and no other outcome (RPC failure, waiting, block failure) moves it, so
it is non-decreasing and never skips a height (this applies to every prefix
of the trace as well, since the trace is arbitrary). -/
theorem blockLoop_cursor (trace : List (Option Nat × Bool)) (st : CoreStoreState)
    (l : Nat) (h1 : get_last_processed_block st = some l)
    (h2 : l + (runBlockLoop trace st).2 < 2 ^ 32) :
    get_last_processed_block (runBlockLoop trace st).1
      = some (l + (runBlockLoop trace st).2) := by
  induction trace generalizing st l with
  | nil => simpa [runBlockLoop] using h1
  | cons step rest ih =>
    rcases step with ⟨tip, ok⟩
    rcases tip with _ | t
    · simp only [runBlockLoop, blockStep, countOne, Nat.add_zero] at h2 ⊢
      exact ih st l h1 h2
    · simp only [runBlockLoop, blockStep, h1] at h2 ⊢
      by_cases hble : (t + 2 ^ 32 - 5) % 2 ^ 32 ≤ l
      · rw [if_pos hble] at h2 ⊢
        simp only [countOne, Nat.add_zero] at h2 ⊢
        exact ih st l h1 h2
      · rw [if_neg hble] at h2 ⊢
        cases ok with
        | false =>
          simp only [Bool.false_eq_true, if_false, countOne, Nat.add_zero] at h2 ⊢
          exact ih st l h1 h2
        | true =>
          simp only [if_true, countOne] at h2 ⊢
          have hlt : l + 1 < 2 ^ 32 := by omega
          have hmod : (l + 1) % 2 ^ 32 = l + 1 := Nat.mod_eq_of_lt hlt
          have hget : get_last_processed_block
              (set_last_processed_block ((l + 1) % 2 ^ 32) st) = some (l + 1) := by
            rw [hmod]
            exact get_set_last_processed_block _ _ hlt
          have := ih (set_last_processed_block ((l + 1) % 2 ^ 32) st) (l + 1) hget
            (by omega)
          rw [this]
          congr 1
          omega

/-- Witness for claim C5 at a concrete trace: from cursor 100, two
successful passes with tip 107 advance the cursor to 102. -/
theorem blockLoop_cursor_witness :
    get_last_processed_block
        (runBlockLoop [(some 107, true), (some 107, true)]
          (set_last_processed_block 100 emptyStore)).1
      = some (100 + (runBlockLoop [(some 107, true), (some 107, true)]
          (set_last_processed_block 100 emptyStore)).2) :=
  blockLoop_cursor [(some 107, true), (some 107, true)]
    (set_last_processed_block 100 emptyStore) 100 (by decide) (by decide)

-- ### src/util/hash.rs: sha512 (the sha2 crate implements FIPS 180-4;
-- the algorithm is carried out here over Nat with explicit mod 2^64)

def M64 : Nat := 18446744073709551616

def add64 (a b : Nat) : Nat := (a + b) % M64

def rotr64 (n x : Nat) : Nat := (x >>> n) ||| ((x <<< (64 - n)) % M64)

def not64 (x : Nat) : Nat := x ^^^ (M64 - 1)

def ch64 (e f g : Nat) : Nat := (e &&& f) ^^^ (not64 e &&& g)

def maj64 (a b c : Nat) : Nat := (a &&& b) ^^^ (a &&& c) ^^^ (b &&& c)

def bigSig0 (x : Nat) : Nat := rotr64 28 x ^^^ rotr64 34 x ^^^ rotr64 39 x

def bigSig1 (x : Nat) : Nat := rotr64 14 x ^^^ rotr64 18 x ^^^ rotr64 41 x

def smallSig0 (x : Nat) : Nat := rotr64 1 x ^^^ rotr64 8 x ^^^ (x >>> 7)

def smallSig1 (x : Nat) : Nat := rotr64 19 x ^^^ rotr64 61 x ^^^ (x >>> 6)

def K512 : List Nat :=
  [4794697086780616226, 8158064640168781261, 13096744586834688815, 16840607885511220156,
   4131703408338449720, 6480981068601479193, 10538285296894168987, 12329834152419229976,
   15566598209576043074, 1334009975649890238, 2608012711638119052, 6128411473006802146,
   8268148722764581231, 9286055187155687089, 11230858885718282805, 13951009754708518548,
   16472876342353939154, 17275323862435702243, 1135362057144423861, 2597628984639134821,
   3308224258029322869, 5365058923640841347, 6679025012923562964, 8573033837759648693,
   10970295158949994411, 12119686244451234320, 12683024718118986047, 13788192230050041572,
   14330467153632333762, 15395433587784984357, 489312712824947311, 1452737877330783856,
   2861767655752347644, 3322285676063803686, 5560940570517711597, 5996557281743188959,
   7280758554555802590, 8532644243296465576, 9350256976987008742, 10552545826968843579,
   11727347734174303076, 12113106623233404929, 14000437183269869457, 14369950271660146224,
   15101387698204529176, 15463397548674623760, 17586052441742319658, 1182934255886127544,
   1847814050463011016, 2177327727835720531, 2830643537854262169, 3796741975233480872,
   4115178125766777443, 5681478168544905931, 6601373596472566643, 7507060721942968483,
   8399075790359081724, 8693463985226723168, 9568029438360202098, 10144078919501101548,
   10430055236837252648, 11840083180663258601, 13761210420658862357, 14299343276471374635,
   14566680578165727644, 15097957966210449927, 16922976911328602910, 17689382322260857208,
   500013540394364858, 748580250866718886, 1242879168328830382, 1977374033974150939,
   2944078676154940804, 3659926193048069267, 4368137639120453308, 4836135668995329356,
   5532061633213252278, 6448918945643986474, 6902733635092675308, 7801388544844847127]

structure H8 where
  a : Nat
  b : Nat
  c : Nat
  d : Nat
  e : Nat
  f : Nat
  g : Nat
  h : Nat

def sha512InitH : H8 :=
  ⟨7640891576956012808, 13503953896175478587, 4354685564936845355, 11912009170470909681,
   5840696475078001361, 11170449401992604703, 2270897969802886507, 6620516959819538809⟩

-- k bytes of n, big-endian.
def beBytes : Nat → Nat → List Nat
  | 0, _ => []
  | k + 1, n => beBytes k (n / 256) ++ [n % 256]

def toWords64 : List Nat → List Nat
  | b0 :: b1 :: b2 :: b3 :: b4 :: b5 :: b6 :: b7 :: rest =>
    (((((((b0 * 256 + b1) * 256 + b2) * 256 + b3) * 256 + b4) * 256 + b5) * 256 + b6)
      * 256 + b7) :: toWords64 rest
  | _ => []

def extendStep (ws : List Nat) : List Nat :=
  let n := ws.length
  let w2 := ws.getD (n - 2) 0
  let w7 := ws.getD (n - 7) 0
  let w15 := ws.getD (n - 15) 0
  let w16 := ws.getD (n - 16) 0
  ws ++ [add64 (add64 (smallSig1 w2) w7) (add64 (smallSig0 w15) w16)]

def extendN : Nat → List Nat → List Nat
  | 0, ws => ws
  | k + 1, ws => extendN k (extendStep ws)

def round512 (kw : Nat × Nat) (s : H8) : H8 :=
  let t1 := add64 s.h (add64 (bigSig1 s.e) (add64 (ch64 s.e s.f s.g) (add64 kw.1 kw.2)))
  let t2 := add64 (bigSig0 s.a) (maj64 s.a s.b s.c)
  ⟨add64 t1 t2, s.a, s.b, s.c, add64 s.d t1, s.e, s.f, s.g⟩

def compress512 (s : H8) (block : List Nat) : H8 :=
  let w := extendN 64 (toWords64 block)
  let r := (K512.zip w).foldl (fun st kw => round512 kw st) s
  ⟨add64 s.a r.a, add64 s.b r.b, add64 s.c r.c, add64 s.d r.d,
   add64 s.e r.e, add64 s.f r.f, add64 s.g r.g, add64 s.h r.h⟩

def sha512Blocks : Nat → H8 → List Nat → H8
  | 0, s, _ => s
  | fuel + 1, s, bytes =>
    match bytes with
    | [] => s
    | _ => sha512Blocks fuel (compress512 s (bytes.take 128)) (bytes.drop 128)

-- Merkle-Damgard padding: one 0x80 byte, zeros, then the bit length as a
-- 16-byte big-endian integer, to a multiple of 128 bytes.
def sha512Pad (msg : List Nat) : List Nat :=
  let L := msg.length
  let zeros := (128 - (L + 17) % 128) % 128
  msg ++ [128] ++ List.replicate zeros 0 ++ beBytes 16 (8 * L)

def sha512Bytes (msg : List Nat) : List Nat :=
  let padded := sha512Pad msg
  let s := sha512Blocks padded.length sha512InitH padded
  beBytes 8 s.a ++ beBytes 8 s.b ++ beBytes 8 s.c ++ beBytes 8 s.d ++
    beBytes 8 s.e ++ beBytes 8 s.f ++ beBytes 8 s.g ++ beBytes 8 s.h

-- src/util/convert.rs bytes_to_hex_string: format each byte as %02X, then
-- lowercase the whole string.
def hexDigitUpper (d : Nat) : Char :=
  if d = 0 then '0' else if d = 1 then '1' else if d = 2 then '2'
  else if d = 3 then '3' else if d = 4 then '4' else if d = 5 then '5'
  else if d = 6 then '6' else if d = 7 then '7' else if d = 8 then '8'
  else if d = 9 then '9' else if d = 10 then 'A' else if d = 11 then 'B'
  else if d = 12 then 'C' else if d = 13 then 'D' else if d = 14 then 'E' else 'F'

def byteToHexUpper (b : Nat) : Str := [hexDigitUpper (b / 16 % 16), hexDigitUpper (b % 16)]

def bytes_to_hex_string (bytes : List Nat) : Str :=
  ((bytes.map byteToHexUpper).flatten).map Char.toLower

-- util::hash::sha512 of a string: SHA-512 over the UTF-8 bytes, rendered
-- as lowercase hex.
def sha512 (value : Str) : Str := bytes_to_hex_string (sha512Bytes (utf8Encode value))

-- Known-answer check of the SHA-512 embedding against the FIPS test vector.
set_option maxRecDepth 100000 in
theorem sha512_abc_kat :
    sha512 (S ("abc"))
      = S ("ddaf35a193617abacc417349ae20413112e6fa4e89a97ea20a9eeee64b55d39a2192992a274fc1a836ba3c23a3feebbd454d4423643ce80e2a9ac94fa54ca49f") := by
  decide

-- ### CoreStore::create_notification
-- The key is the first 32 hex characters of sha512("token:txid:txtype:amount");
-- the value records the key as id together with all fields and the current
-- unix timestamp (passed in as now).

def notificationKey (token txid txtype : Str) (amount : Nat) : Str :=
  (sha512 (token ++ [':'] ++ txid ++ [':'] ++ txtype ++ [':'] ++ natToDec amount)).take 32

def create_notification (token address txid txtype : Str) (amount : Nat)
    (confirmed : Bool) (now : Nat) (st : CoreStoreState) : CoreStoreState :=
  { st with notification := (putKV (notificationKey token txid txtype amount)
      (⟨notificationKey token txid txtype amount,
        token, address, txid, txtype, amount, confirmed, now⟩ : Notification)
      st.notification) }

/-- Claim C1: the id stored by create_notification is the first 32 hex
characters of SHA-512 of "token:txid:txtype:amount", and two calls with the
same (token, txid, txtype, amount) leave exactly one notification entry
under that id (the second call overwrites the first). -/
theorem create_notification_idempotent
    (token address1 address2 txid txtype : Str) (amount : Nat)
    (c1 c2 : Bool) (now1 now2 : Nat) (st : CoreStoreState)
    (hnd : (st.notification.map Prod.fst).Nodup) :
    (create_notification token address2 txid txtype amount c2 now2
        (create_notification token address1 txid txtype amount c1 now1 st)).notification.filter
        (fun p => p.1 ==
          (sha512 (token ++ [':'] ++ txid ++ [':'] ++ txtype ++ [':'] ++ natToDec amount)).take 32)
      = [((sha512 (token ++ [':'] ++ txid ++ [':'] ++ txtype ++ [':'] ++ natToDec amount)).take 32,
          ⟨(sha512 (token ++ [':'] ++ txid ++ [':'] ++ txtype ++ [':'] ++ natToDec amount)).take 32,
            token, address2, txid, txtype, amount, c2, now2⟩)] ∧
      ∀ p ∈ (create_notification token address2 txid txtype amount c2 now2
        (create_notification token address1 txid txtype amount c1 now1 st)).notification,
        p.1 = (sha512 (token ++ [':'] ++ txid ++ [':'] ++ txtype ++ [':'] ++ natToDec amount)).take 32
          → p.2.id = p.1 := by
  have hkey : notificationKey token txid txtype amount
      = (sha512 (token ++ [':'] ++ txid ++ [':'] ++ txtype ++ [':'] ++ natToDec amount)).take 32 := rfl
  have hnd1 : (((create_notification token address1 txid txtype amount c1 now1
      st).notification).map Prod.fst).Nodup := keys_putKV_nodup hnd
  have hfilter := filter_putKV
    (k := notificationKey token txid txtype amount)
    (v := ⟨notificationKey token txid txtype amount,
      token, address2, txid, txtype, amount, c2, now2⟩) hnd1
  constructor
  · rw [← hkey]
    exact hfilter
  · intro p hp hp1
    have hmem : p ∈ (create_notification token address2 txid txtype amount c2 now2
        (create_notification token address1 txid txtype amount c1 now1
          st)).notification.filter
        (fun q => q.1 == notificationKey token txid txtype amount) := by
      rw [List.mem_filter]
      exact ⟨hp, by simpa [hkey] using hp1⟩
    rw [show (create_notification token address2 txid txtype amount c2 now2
        (create_notification token address1 txid txtype amount c1 now1
          st)).notification = putKV (notificationKey token txid txtype amount)
            ⟨notificationKey token txid txtype amount,
              token, address2, txid, txtype, amount, c2, now2⟩
            (create_notification token address1 txid txtype amount c1 now1
              st).notification from rfl] at hmem
    rw [hfilter] at hmem
    rw [List.mem_singleton] at hmem
    rw [hmem]

/-- Witness for claim C1 at concrete inputs, starting from the empty store. -/
theorem create_notification_idempotent_witness :
    (create_notification (S ("aa")) (S ("b2")) (S ("cc")) (S ("in")) 5 true 200
        (create_notification (S ("aa")) (S ("b1")) (S ("cc")) (S ("in")) 5 false 100
          emptyStore)).notification.filter
        (fun p => p.1 ==
          (sha512 (S ("aa") ++ [':'] ++ S ("cc") ++ [':'] ++ S ("in") ++ [':'] ++ natToDec 5)).take 32)
      = [((sha512 (S ("aa") ++ [':'] ++ S ("cc") ++ [':'] ++ S ("in") ++ [':'] ++ natToDec 5)).take 32,
          ⟨(sha512 (S ("aa") ++ [':'] ++ S ("cc") ++ [':'] ++ S ("in") ++ [':'] ++ natToDec 5)).take 32,
            S ("aa"), S ("b2"), S ("cc"), S ("in"), 5, true, 200⟩)] ∧
      ∀ p ∈ (create_notification (S ("aa")) (S ("b2")) (S ("cc")) (S ("in")) 5 true 200
        (create_notification (S ("aa")) (S ("b1")) (S ("cc")) (S ("in")) 5 false 100
          emptyStore)).notification,
        p.1 = (sha512 (S ("aa") ++ [':'] ++ S ("cc") ++ [':'] ++ S ("in") ++ [':'] ++ natToDec 5)).take 32
          → p.2.id = p.1 :=
  create_notification_idempotent (S ("aa")) (S ("b1")) (S ("b2")) (S ("cc")) (S ("in"))
    5 false true 100 200 emptyStore (by decide)

theorem putKV_twice_nil {α : Type} (k : Str) (v1 v2 : α) :
    putKV k v2 (putKV k v1 []) = [(k, v2)] := by
  simp [putKV]

/-- Claim C6, counterexample: the claim says a transaction classified once
unconfirmed and once confirmed yields two notifications with distinct ids;
in fact the id hash excludes the confirmed flag, the keys collide, and after
both calls the notification partition holds a single entry. -/
theorem confirmed_overwrite_counterexample :
    ((create_notification (S ("aa")) (S ("bb")) (S ("cc")) (S ("in")) 5 true 200
        (create_notification (S ("aa")) (S ("bb")) (S ("cc")) (S ("in")) 5 false 100
          emptyStore)).notification).length = 1 := by
  simp only [create_notification, emptyStore]
  rw [putKV_twice_nil]
  rfl

/-- Claim C6 (amended): a transaction classified once with confirmed=false
and later with confirmed=true for the same (token, txid, txtype, amount)
produces notifications sharing a single id (the hash excludes the confirmed
flag), so the confirmed entry overwrites the pending one: after the first
call the only entry under the id is the pending record, and after the second
it is the confirmed record. -/
theorem confirmed_overwrites_pending
    (token address txid txtype : Str) (amount : Nat) (now1 now2 : Nat)
    (st : CoreStoreState) (hnd : (st.notification.map Prod.fst).Nodup) :
    (create_notification token address txid txtype amount false now1 st).notification.filter
        (fun p => p.1 == notificationKey token txid txtype amount)
      = [(notificationKey token txid txtype amount,
          ⟨notificationKey token txid txtype amount,
            token, address, txid, txtype, amount, false, now1⟩)] ∧
      (create_notification token address txid txtype amount true now2
        (create_notification token address txid txtype amount false now1
          st)).notification.filter
        (fun p => p.1 == notificationKey token txid txtype amount)
      = [(notificationKey token txid txtype amount,
          ⟨notificationKey token txid txtype amount,
            token, address, txid, txtype, amount, true, now2⟩)] := by
  constructor
  · exact filter_putKV hnd
  · exact filter_putKV (keys_putKV_nodup hnd)

/-- Witness for the amended claim C6 at concrete inputs. -/
theorem confirmed_overwrites_pending_witness :
    (create_notification (S ("aa")) (S ("bb")) (S ("cc")) (S ("in")) 5 false 100
        emptyStore).notification.filter
        (fun p => p.1 == notificationKey (S ("aa")) (S ("cc")) (S ("in")) 5)
      = [(notificationKey (S ("aa")) (S ("cc")) (S ("in")) 5,
          ⟨notificationKey (S ("aa")) (S ("cc")) (S ("in")) 5,
            S ("aa"), S ("bb"), S ("cc"), S ("in"), 5, false, 100⟩)] ∧
      (create_notification (S ("aa")) (S ("bb")) (S ("cc")) (S ("in")) 5 true 200
        (create_notification (S ("aa")) (S ("bb")) (S ("cc")) (S ("in")) 5 false 100
          emptyStore)).notification.filter
        (fun p => p.1 == notificationKey (S ("aa")) (S ("cc")) (S ("in")) 5)
      = [(notificationKey (S ("aa")) (S ("cc")) (S ("in")) 5,
          ⟨notificationKey (S ("aa")) (S ("cc")) (S ("in")) 5,
            S ("aa"), S ("bb"), S ("cc"), S ("in"), 5, true, 200⟩)] :=
  confirmed_overwrites_pending (S ("aa")) (S ("bb")) (S ("cc")) (S ("in")) 5 100 200
    emptyStore (by decide)

-- ### CoreStore::delete_token and its cascades

-- CoreStore::delete_notifications_by_token: iterate a snapshot of the
-- notification partition, deleting the key of every entry whose value
-- carries the token.
def delNotifsLoop (token : Str) :
    List (Str × Notification) → List (Str × Notification) → List (Str × Notification)
  | [], st => st
  | (k, v) :: rest, st =>
    delNotifsLoop token rest (if v.token == token then deleteKV k st else st)

def delete_notifications_by_token (token : Str) (st : CoreStoreState) : CoreStoreState :=
  { st with notification := delNotifsLoop token st.notification st.notification }

-- CoreStore::delete_addresses_by_token: for each record containing the
-- token, retain the other tokens; delete the record if none remain,
-- otherwise write the shrunk record back.
def delAddrsLoop (token : Str) :
    List (Str × Address) → List (Str × Address) → List (Str × Address)
  | [], st => st
  | (k, v) :: rest, st =>
    delAddrsLoop token rest
      (if v.tokens.contains token then
        (if (v.tokens.filter (fun x => !(x == token))).isEmpty then deleteKV k st
         else putKV k ⟨v.tokens.filter (fun x => !(x == token))⟩ st)
       else st)

def delete_addresses_by_token (token : Str) (st : CoreStoreState) : CoreStoreState :=
  { st with address := delAddrsLoop token st.address st.address }

-- CoreStore::delete_token: delete the notifications, then the address
-- links, then the token entry itself.
def delete_token (token : Str) (st : CoreStoreState) : CoreStoreState :=
  { delete_addresses_by_token token (delete_notifications_by_token token st) with
      token := deleteKV token
        (delete_addresses_by_token token (delete_notifications_by_token token st)).token }

theorem delNotifsLoop_clears (t : Str) (l : List (Str × Notification)) :
    ∀ st, (∀ p ∈ st, p.2.token = t → p ∈ l) →
      ∀ p ∈ delNotifsLoop t l st, p.2.token ≠ t := by
  induction l with
  | nil =>
    intro st hcover p hp htok
    exact absurd (hcover p (by simpa [delNotifsLoop] using hp) htok) (List.not_mem_nil p)
  | cons head rest ih =>
    rcases head with ⟨k, v⟩
    intro st hcover
    simp only [delNotifsLoop]
    apply ih
    intro p hp htok
    by_cases hv : v.token == t
    · rw [if_pos hv] at hp
      rcases mem_deleteKV.mp hp with ⟨hpst, hpk⟩
      rcases List.mem_cons.mp (hcover p hpst htok) with heq | hmem
      · exact absurd (by rw [heq]) hpk
      · exact hmem
    · rw [if_neg hv] at hp
      rcases List.mem_cons.mp (hcover p hp htok) with heq | hmem
      · exact absurd (by rw [heq] at htok; exact htok) (by simpa using hv)
      · exact hmem

theorem delAddrsLoop_clears (t : Str) (l : List (Str × Address)) :
    ∀ st, (∀ p ∈ st, t ∈ p.2.tokens → p ∈ l) →
      ∀ p ∈ delAddrsLoop t l st, t ∉ p.2.tokens := by
  induction l with
  | nil =>
    intro st hcover p hp htok
    exact absurd (hcover p (by simpa [delAddrsLoop] using hp) htok) (List.not_mem_nil p)
  | cons head rest ih =>
    rcases head with ⟨k, v⟩
    intro st hcover
    simp only [delAddrsLoop]
    apply ih
    intro p hp htok
    by_cases hv : v.tokens.contains t
    · rw [if_pos hv] at hp
      by_cases hemp : (v.tokens.filter (fun x => !(x == t))).isEmpty
      · rw [if_pos hemp] at hp
        rcases mem_deleteKV.mp hp with ⟨hpst, hpk⟩
        rcases List.mem_cons.mp (hcover p hpst htok) with heq | hmem
        · exact absurd (by rw [heq]) hpk
        · exact hmem
      · rw [if_neg hemp] at hp
        rcases mem_putKV hp with heq | ⟨hpst, hpk⟩
        · exfalso
          rw [heq] at htok
          simp only [List.mem_filter] at htok
          simpa using htok.2
        · rcases List.mem_cons.mp (hcover p hpst htok) with heq | hmem
          · exact absurd (by rw [heq]) hpk
          · exact hmem
    · rw [if_neg hv] at hp
      rcases List.mem_cons.mp (hcover p hp htok) with heq | hmem
      · exfalso
        apply (by simpa using hv : t ∉ v.tokens)
        rw [heq] at htok
        exact htok
      · exact hmem

theorem delAddrsLoop_preserves_nonempty (t : Str) (l : List (Str × Address)) :
    ∀ st, (∀ p ∈ st, p.2.tokens ≠ []) →
      ∀ p ∈ delAddrsLoop t l st, p.2.tokens ≠ [] := by
  induction l with
  | nil =>
    intro st hne p hp
    exact hne p (by simpa [delAddrsLoop] using hp)
  | cons head rest ih =>
    rcases head with ⟨k, v⟩
    intro st hne
    simp only [delAddrsLoop]
    apply ih
    intro p hp
    by_cases hv : v.tokens.contains t
    · rw [if_pos hv] at hp
      by_cases hemp : (v.tokens.filter (fun x => !(x == t))).isEmpty
      · rw [if_pos hemp] at hp
        exact hne p (mem_deleteKV.mp hp).1
      · rw [if_neg hemp] at hp
        rcases mem_putKV hp with heq | ⟨hpst, _⟩
        · rw [heq]
          intro hcontra
          apply hemp
          rw [show (⟨v.tokens.filter (fun x => !(x == t))⟩ : Address).tokens
            = v.tokens.filter (fun x => !(x == t)) from rfl] at hcontra
          rw [hcontra]
          rfl
        · exact hne p hpst
    · rw [if_neg hv] at hp
      exact hne p hp

/-- Claim C2: after delete_token(t), no notification owned by t remains, no
address record still lists t, and, provided no address record was empty to
begin with (the store invariant), no address record with an empty token set
exists afterwards. -/
theorem delete_token_cascade (t : Str) (st : CoreStoreState)
    (hne : ∀ p ∈ st.address, p.2.tokens ≠ []) :
    (∀ p ∈ (delete_token t st).notification, p.2.token ≠ t) ∧
      (∀ p ∈ (delete_token t st).address, t ∉ p.2.tokens) ∧
      (∀ p ∈ (delete_token t st).address, p.2.tokens ≠ []) := by
  have hnotif : (delete_token t st).notification
      = delNotifsLoop t st.notification st.notification := rfl
  have haddr : (delete_token t st).address
      = delAddrsLoop t st.address st.address := rfl
  refine ⟨?_, ?_, ?_⟩
  · rw [hnotif]
    exact delNotifsLoop_clears t st.notification st.notification (fun p hp _ => hp)
  · rw [haddr]
    exact delAddrsLoop_clears t st.address st.address (fun p hp _ => hp)
  · rw [haddr]
    exact delAddrsLoop_preserves_nonempty t st.address st.address hne

/-- Witness for claim C2 on a concrete store holding two address records and
two notifications. -/
theorem delete_token_cascade_witness :
    (∀ p ∈ (delete_token (S ("t0"))
        { network := [], token := [(S ("t0"), [])],
          address := [(S ("a1"), ⟨[S ("t0"), S ("t1")]⟩), (S ("a2"), ⟨[S ("t0")]⟩)],
          notification := [(S ("k1"), ⟨S ("k1"), S ("t0"), S ("a1"), S ("x1"), S ("in"), 1, true, 0⟩),
            (S ("k2"), ⟨S ("k2"), S ("t1"), S ("a1"), S ("x2"), S ("in"), 2, true, 0⟩)] }).notification,
        p.2.token ≠ S ("t0")) ∧
      (∀ p ∈ (delete_token (S ("t0"))
        { network := [], token := [(S ("t0"), [])],
          address := [(S ("a1"), ⟨[S ("t0"), S ("t1")]⟩), (S ("a2"), ⟨[S ("t0")]⟩)],
          notification := [(S ("k1"), ⟨S ("k1"), S ("t0"), S ("a1"), S ("x1"), S ("in"), 1, true, 0⟩),
            (S ("k2"), ⟨S ("k2"), S ("t1"), S ("a1"), S ("x2"), S ("in"), 2, true, 0⟩)] }).address,
        S ("t0") ∉ p.2.tokens) ∧
      (∀ p ∈ (delete_token (S ("t0"))
        { network := [], token := [(S ("t0"), [])],
          address := [(S ("a1"), ⟨[S ("t0"), S ("t1")]⟩), (S ("a2"), ⟨[S ("t0")]⟩)],
          notification := [(S ("k1"), ⟨S ("k1"), S ("t0"), S ("a1"), S ("x1"), S ("in"), 1, true, 0⟩),
            (S ("k2"), ⟨S ("k2"), S ("t1"), S ("a1"), S ("x2"), S ("in"), 2, true, 0⟩)] }).address,
        p.2.tokens ≠ []) :=
  delete_token_cascade (S ("t0"))
    { network := [], token := [(S ("t0"), [])],
      address := [(S ("a1"), ⟨[S ("t0"), S ("t1")]⟩), (S ("a2"), ⟨[S ("t0")]⟩)],
      notification := [(S ("k1"), ⟨S ("k1"), S ("t0"), S ("a1"), S ("x1"), S ("in"), 1, true, 0⟩),
        (S ("k2"), ⟨S ("k2"), S ("t1"), S ("a1"), S ("x2"), S ("in"), 2, true, 0⟩)] }
    (by decide)

-- ### IEEE-754 binary64 model
-- The RPC collaborator reports BTC amounts as f64. A finite double is a
-- dyadic rational m * 2^e; each operation rounds its exact result to 53
-- significant bits, ties to even, as IEEE-754 prescribes in the normal
-- range (exponent overflow and subnormals do not arise at the magnitudes
-- involved in these claims).

structure Dy where
  m : Int
  e : Int
deriving DecidableEq

-- Number of bits of a beyond 53 (fuelled structural recursion; fuel 4096
-- covers every intermediate arising from 53-bit operands).
def excessBits : Nat → Nat → Nat
  | 0, _ => 0
  | f + 1, a => if a < 9007199254740992 then 0 else excessBits f (a / 2) + 1

def roundDy (x : Dy) : Dy :=
  if x.m = 0 then ⟨0, 0⟩
  else
    let a := x.m.natAbs
    let s := excessBits 4096 a
    if s = 0 then x
    else
      let q := a >>> s
      let r := a - (q <<< s)
      let half := 2 ^ (s - 1)
      let q2 := if r > half ∨ (r = half ∧ q % 2 = 1) then q + 1 else q
      ⟨if x.m < 0 then -(q2 : Int) else (q2 : Int), x.e + s⟩

def fadd (x y : Dy) : Dy :=
  let k := min x.e y.e
  roundDy ⟨x.m * 2 ^ (x.e - k).toNat + y.m * 2 ^ (y.e - k).toNat, k⟩

def fsub (x y : Dy) : Dy := fadd x ⟨-y.m, y.e⟩

def fmul (x y : Dy) : Dy := roundDy ⟨x.m * y.m, x.e + y.e⟩

def dyLtB (x y : Dy) : Bool :=
  decide (x.m * 2 ^ (x.e - min x.e y.e).toNat < y.m * 2 ^ (y.e - min x.e y.e).toNat)

-- Rust `as u64` on an f64: truncation toward zero, saturating.
def f64toU64 (x : Dy) : Nat :=
  if x.m ≤ 0 then 0
  else min (if 0 ≤ x.e then x.m.natAbs <<< x.e.toNat else x.m.natAbs >>> (-x.e).toNat)
    (2 ^ 64 - 1)

-- The doubles written 0.30000000 and 0.69990000 in the scenario: each
-- constant is within half an ulp of the decimal value (checked below), so
-- it is the f64 nearest to it; 1.0 and 100000000.0 are exact.
def btc03 : Dy := ⟨5404319552844595, -54⟩

def btc06999 : Dy := ⟨1576034689598305, -51⟩

-- 2 * |3 * 2^54 - 10 * m| < 10, i.e. |3/10 - m/2^54| < 2^-55, half an ulp
-- at that magnitude.
theorem btc03_is_nearest_double :
    ((3 : Int) * 2 ^ 54 - 10 * 5404319552844595).natAbs * 2 < 10 := by decide

theorem btc06999_is_nearest_double :
    ((6999 : Int) * 2 ^ 51 - 10000 * 1576034689598305).natAbs * 2 < 10000 := by decide

-- ### src/core/bitcoin/processor.rs: the classifier

structure ScriptPubKey where
  address : Option Str
deriving DecidableEq

structure TxOut where
  value : Dy
  n : Option Nat
  script_pub_key : ScriptPubKey
deriving DecidableEq

structure TxIn where
  txid : Option Str
  vout : Option Nat
  prevout : Option TxOut
deriving DecidableEq

structure Transaction where
  txid : Str
  vin : List TxIn
  vout : List TxOut
deriving DecidableEq

-- First phase of Processor::process_transaction: aggregate prevout values
-- by address (the Rust HashMap is modelled as an association list; entries
-- are kept in insertion order, which only affects the order of residual
-- "out" emissions).
def aggInputs : List TxIn → List (Str × TxOut) → List (Str × TxOut)
  | [], acc => acc
  | i :: rest, acc =>
    aggInputs rest
      (match i.prevout with
       | none => acc
       | some pv =>
         match pv.script_pub_key.address with
         | none => acc
         | some addr =>
           match lookupKV addr acc with
           | some x => putKV addr { x with value := fadd x.value pv.value } acc
           | none => acc ++ [(addr, pv)])

-- Second phase: walk the outputs, emitting net-flow classifications and
-- consuming matched inputs; an emission is the TxOut handed to
-- queue_notification together with the direction string.
def processOuts : List TxOut → List (Str × TxOut) → List (TxOut × Str) × List (Str × TxOut)
  | [], inputs => ([], inputs)
  | o :: rest, inputs =>
    match o.script_pub_key.address with
    | none => processOuts rest inputs
    | some addr =>
      match lookupKV addr inputs with
      | some inp =>
        let em := if dyLtB o.value inp.value
          then ({ inp with value := fsub inp.value o.value }, S ("out"))
          else ({ o with value := fsub o.value inp.value }, S ("in"))
        let r := processOuts rest (deleteKV addr inputs)
        (em :: r.1, r.2)
      | none =>
        let r := processOuts rest inputs
        ((o, S ("in")) :: r.1, r.2)

-- Processor::process_transaction, abstracted to the sequence of
-- queue_notification calls it performs (in order): classified outputs
-- first, then the residual inputs as "out".
def process_transaction (tx : Transaction) : List (TxOut × Str) :=
  (processOuts tx.vout (aggInputs tx.vin [])).1
    ++ (processOuts tx.vout (aggInputs tx.vin [])).2.map (fun p => (p.2, S ("out")))

-- Processor::queue_notification computes the satoshi amount as
-- (tx_out.value * 100_000_000.0) as u64.
def amountSat (v : Dy) : Nat := f64toU64 (fmul v ⟨100000000, 0⟩)

def emissionView (e : TxOut × Str) : Option Str × Str × Nat :=
  (e.1.script_pub_key.address, e.2, amountSat e.1.value)

-- The S4 scenario transaction: one input of 1.0 BTC from A, outputs of
-- 0.3 BTC back to A and 0.6999 BTC to B.
def s4Tx : Transaction :=
  { txid := S ("txS4"),
    vin := [{ txid := some (S ("prev")), vout := some 0,
              prevout := some { value := ⟨1, 0⟩, n := some 0,
                                script_pub_key := { address := some (S ("addrA")) } } }],
    vout := [{ value := btc03, n := some 0,
               script_pub_key := { address := some (S ("addrA")) } },
             { value := btc06999, n := some 1,
               script_pub_key := { address := some (S ("addrB")) } }] }

/-- Claim C4, counterexample: on the S4 transaction the classifier does not
emit (A, "out", 70_010_000); the "out" amount for A is 70_000_000 (one input
of 1.0 BTC minus 0.3 BTC change). -/
theorem s4_amount_counterexample :
    (process_transaction s4Tx).map emissionView
      ≠ [(some (S ("addrA")), S ("out"), 70010000),
         (some (S ("addrB")), S ("in"), 69990000)] := by
  decide

/-- Claim C4 (amended): on the S4 transaction (input 1.0 BTC from A, outputs
0.3 BTC to A and 0.6999 BTC to B, both watched) the classifier emits exactly
(A, "out", 70_000_000) and (B, "in", 69_990_000); satoshi amounts are
obtained by multiplying the f64 value by 1e8 and casting to u64 (truncation,
which at these values coincides with rounding). -/
theorem s4_classification :
    (process_transaction s4Tx).map emissionView
      = [(some (S ("addrA")), S ("out"), 70000000),
         (some (S ("addrB")), S ("in"), 69990000)] := by
  decide

-- ### SHA-256 (used by the base58check checksum in the bitcoin crate's
-- base58::from_check), FIPS 180-4 over Nat with explicit mod 2^32.

def M32 : Nat := 4294967296

def add32 (a b : Nat) : Nat := (a + b) % M32

def rotr32 (n x : Nat) : Nat := (x >>> n) ||| ((x <<< (32 - n)) % M32)

def not32 (x : Nat) : Nat := x ^^^ (M32 - 1)

def ch32 (e f g : Nat) : Nat := (e &&& f) ^^^ (not32 e &&& g)

def maj32 (a b c : Nat) : Nat := (a &&& b) ^^^ (a &&& c) ^^^ (b &&& c)

def bigSig0x (x : Nat) : Nat := rotr32 2 x ^^^ rotr32 13 x ^^^ rotr32 22 x

def bigSig1x (x : Nat) : Nat := rotr32 6 x ^^^ rotr32 11 x ^^^ rotr32 25 x

def smallSig0x (x : Nat) : Nat := rotr32 7 x ^^^ rotr32 18 x ^^^ (x >>> 3)

def smallSig1x (x : Nat) : Nat := rotr32 17 x ^^^ rotr32 19 x ^^^ (x >>> 10)

def K256 : List Nat :=
  [1116352408, 1899447441, 3049323471, 3921009573, 961987163, 1508970993, 2453635748, 2870763221,
   3624381080, 310598401, 607225278, 1426881987, 1925078388, 2162078206, 2614888103, 3248222580,
   3835390401, 4022224774, 264347078, 604807628, 770255983, 1249150122, 1555081692, 1996064986,
   2554220882, 2821834349, 2952996808, 3210313671, 3336571891, 3584528711, 113926993, 338241895,
   666307205, 773529912, 1294757372, 1396182291, 1695183700, 1986661051, 2177026350, 2456956037,
   2730485921, 2820302411, 3259730800, 3345764771, 3516065817, 3600352804, 4094571909, 275423344,
   430227734, 506948616, 659060556, 883997877, 958139571, 1322822218, 1537002063, 1747873779,
   1955562222, 2024104815, 2227730452, 2361852424, 2428436474, 2756734187, 3204031479, 3329325298]

def sha256InitH : H8 :=
  ⟨1779033703, 3144134277, 1013904242, 2773480762, 1359893119, 2600822924, 528734635, 1541459225⟩

def toWords32 : List Nat → List Nat
  | b0 :: b1 :: b2 :: b3 :: rest => (((b0 * 256 + b1) * 256 + b2) * 256 + b3) :: toWords32 rest
  | _ => []

def extendStep32 (ws : List Nat) : List Nat :=
  let n := ws.length
  ws ++ [add32 (add32 (smallSig1x (ws.getD (n - 2) 0)) (ws.getD (n - 7) 0))
    (add32 (smallSig0x (ws.getD (n - 15) 0)) (ws.getD (n - 16) 0))]

def extendN32 : Nat → List Nat → List Nat
  | 0, ws => ws
  | k + 1, ws => extendN32 k (extendStep32 ws)

def round256 (kw : Nat × Nat) (s : H8) : H8 :=
  let t1 := add32 s.h (add32 (bigSig1x s.e) (add32 (ch32 s.e s.f s.g) (add32 kw.1 kw.2)))
  let t2 := add32 (bigSig0x s.a) (maj32 s.a s.b s.c)
  ⟨add32 t1 t2, s.a, s.b, s.c, add32 s.d t1, s.e, s.f, s.g⟩

def compress256 (s : H8) (block : List Nat) : H8 :=
  let w := extendN32 48 (toWords32 block)
  let r := (K256.zip w).foldl (fun st kw => round256 kw st) s
  ⟨add32 s.a r.a, add32 s.b r.b, add32 s.c r.c, add32 s.d r.d,
   add32 s.e r.e, add32 s.f r.f, add32 s.g r.g, add32 s.h r.h⟩

def sha256Blocks : Nat → H8 → List Nat → H8
  | 0, s, _ => s
  | fuel + 1, s, bytes =>
    match bytes with
    | [] => s
    | _ => sha256Blocks fuel (compress256 s (bytes.take 64)) (bytes.drop 64)

def sha256Pad (msg : List Nat) : List Nat :=
  let L := msg.length
  let zeros := (64 - (L + 9) % 64) % 64
  msg ++ [128] ++ List.replicate zeros 0 ++ beBytes 8 (8 * L)

def sha256Bytes (msg : List Nat) : List Nat :=
  let padded := sha256Pad msg
  let s := sha256Blocks padded.length sha256InitH padded
  beBytes 4 s.a ++ beBytes 4 s.b ++ beBytes 4 s.c ++ beBytes 4 s.d ++
    beBytes 4 s.e ++ beBytes 4 s.f ++ beBytes 4 s.g ++ beBytes 4 s.h

-- Known-answer check of the SHA-256 embedding against the FIPS test vector.
set_option maxRecDepth 100000 in
theorem sha256_abc_kat :
    bytes_to_hex_string (sha256Bytes (utf8Encode (S ("abc"))))
      = S ("ba7816bf8f01cfea414140de5dae2223b00361a396177a9cb410ff61f20015ad") := by
  decide

-- ### base58 and base58check (the bitcoin crate's base58 module)

def b58Alphabet : Str := S ("123456789ABCDEFGHJKLMNPQRSTUVWXYZabcdefghijkmnopqrstuvwxyz")

def b58Val (c : Char) : Option Nat := b58Alphabet.indexOf? c

-- Minimal big-endian byte representation (fuelled).
def natToBEBytes : Nat → Nat → List Nat
  | 0, _ => []
  | f + 1, n => if n = 0 then [] else natToBEBytes f (n / 256) ++ [n % 256]

-- base58::from: reject invalid characters; leading '1' characters become
-- leading zero bytes.
def decode58 (s : Str) : Option (List Nat) :=
  match s.mapM b58Val with
  | none => none
  | some vals =>
    some (List.replicate ((s.takeWhile (fun c => c == '1')).length) 0
      ++ natToBEBytes (vals.length + 1) (vals.foldl (fun a d => a * 58 + d) 0))

def sha256d (bytes : List Nat) : List Nat := sha256Bytes (sha256Bytes bytes)

-- base58::from_check: decode, require at least the 4 checksum bytes, verify
-- the double-SHA-256 checksum, return the payload.
def from_check (s : Str) : Option (List Nat) :=
  match decode58 s with
  | none => none
  | some data =>
    if data.length < 4 then none
    else if (sha256d (data.take (data.length - 4))).take 4 = data.drop (data.length - 4)
    then some (data.take (data.length - 4))
    else none

-- ### src/core/bitcoin/address.rs

-- Outcome of Rust code that can panic (slice out of bounds, unwrap).
inductive Ret (α : Type) where
  | panic
  | ok (val : α)
deriving DecidableEq

-- src/util/convert.rs hex_to_bytes.
def hexCharVal (c : Char) : Option Nat :=
  match decVal c with
  | some d => some d
  | none =>
    if c = 'a' then some 10 else if c = 'b' then some 11 else if c = 'c' then some 12
    else if c = 'd' then some 13 else if c = 'e' then some 14 else if c = 'f' then some 15
    else if c = 'A' then some 10 else if c = 'B' then some 11 else if c = 'C' then some 12
    else if c = 'D' then some 13 else if c = 'E' then some 14 else if c = 'F' then some 15
    else none

def hexPairUp : List Nat → List Nat
  | h :: l :: rest => (h * 16 + l) :: hexPairUp rest
  | _ => []

def hex_to_bytes (s : Str) : List Nat := hexPairUp (s.filterMap hexCharVal)

-- convert_to_xpub: on base58check success, replace the first four payload
-- bytes by the canonical xpub version bytes; data[4..] panics when the
-- payload is shorter than four bytes.
def convert_to_xpub (public_key : Str) : Ret (Option (List Nat)) :=
  match from_check public_key with
  | none => .ok none
  | some data =>
    if data.length < 4 then .panic
    else .ok (some (hex_to_bytes (S ("0488b21e")) ++ data.drop 4))

def is_public_key (public_key : Str) : Ret Bool :=
  match convert_to_xpub public_key with
  | .panic => .panic
  | .ok o => .ok o.isSome

-- Rust byte slicing s[0..n]: fails (panics) unless the string has at least
-- n bytes with a character boundary exactly at byte n.
def takeBytes : Nat → Str → Option Str
  | 0, _ => some []
  | _ + 1, [] => none
  | n, c :: cs =>
    if (charUtf8 c).length ≤ n then (takeBytes (n - (charUtf8 c).length) cs).map (fun r => c :: r)
    else none

inductive MultisigError where
  | InvalidScriptType
  | InvalidSignatureNumber
  | InvalidXPubKeysNumber
  | PublicKeysEmpty
  | PublicKeysWithDifferentScriptTypes
deriving DecidableEq

-- The decoded extended public key type and its operations live in the
-- bitcoin crate; the embedding abstracts over them: K is the type of
-- decoded keys, decode is ExtendedPubKey::decode (None for payloads it
-- rejects), derivePub maps a key, the change index and the child index to
-- the serialized compressed public key bytes.
structure Multisig (K : Type) where
  script_type : Str
  required_signatures : Int
  xpub_keys : List K
deriving DecidableEq

-- The mixed-prefix check: all(|item| item[0..4] == public_keys[0][0..4]),
-- slicing the item first, then the first key, stopping at the first
-- mismatch; a failed slice is a panic.
def prefixLoop (k0 : Str) : List Str → Ret Bool
  | [] => .ok true
  | k :: rest =>
    match takeBytes 4 k with
    | none => .panic
    | some pk =>
      match takeBytes 4 k0 with
      | none => .panic
      | some p0 => if pk = p0 then prefixLoop k0 rest else .ok false

-- The decoding pass: keys whose base58check decoding fails are silently
-- skipped (shrinking the result list); a decodable key whose payload
-- ExtendedPubKey::decode rejects hits unwrap and panics, as does a payload
-- shorter than 4 bytes inside convert_to_xpub.
def collectXpubs {K : Type} (decode : List Nat → Option K) : List Str → Ret (List K)
  | [] => .ok []
  | k :: rest =>
    match convert_to_xpub k with
    | .panic => .panic
    | .ok none => collectXpubs decode rest
    | .ok (some b) =>
      match decode b with
      | none => .panic
      | some x =>
        match collectXpubs decode rest with
        | .panic => .panic
        | .ok xs => .ok (x :: xs)

-- Multisig::new.
def multisigNew {K : Type} (decode : List Nat → Option K) (script_type : Str)
    (required_signatures : Int) (public_keys : List Str) :
    Ret (MultisigError ⊕ Multisig K) :=
  if script_type ≠ S ("p2wsh") ∧ script_type ≠ S ("p2shwsh") ∧ script_type ≠ S ("p2sh")
  then .ok (.inl .InvalidScriptType)
  else if public_keys = [] then .ok (.inl .PublicKeysEmpty)
  else if required_signatures > (public_keys.length : Int)
  then .ok (.inl .InvalidSignatureNumber)
  else
    match prefixLoop (public_keys.headD []) public_keys with
    | .panic => .panic
    | .ok false => .ok (.inl .PublicKeysWithDifferentScriptTypes)
    | .ok true =>
      match collectXpubs decode public_keys with
      | .panic => .panic
      | .ok xs =>
        if (xs.length : Int) ≠ (public_keys.length : Int)
        then .ok (.inl .InvalidXPubKeysNumber)
        else .ok (.inr ⟨script_type, required_signatures, xs⟩)

inductive ApiError where
  | Db (e : DbError)
  | Secp256k1
  | InvalidArgs
deriving DecidableEq

-- CoreApi::add_addresses_from_multisig, abstracted to its error behaviour:
-- any Multisig::new error is surfaced as InvalidArgs; on success the
-- derive loop runs and the call returns Ok.
def add_addresses_from_multisig_check {K : Type} (decode : List Nat → Option K)
    (script_type : Str) (required_signatures : Int) (public_keys : List Str) :
    Ret (Option ApiError) :=
  match multisigNew decode script_type required_signatures public_keys with
  | .panic => .panic
  | .ok (.inl _) => .ok (some .InvalidArgs)
  | .ok (.inr _) => .ok none

-- ### Multisig::derive (the script built for one child index)

-- Lexicographic byte order, the Ord of serialized public keys.
def lexLe : List Nat → List Nat → Bool
  | [], _ => true
  | _ :: _, [] => false
  | x :: xs, y :: ys => if x < y then true else if y < x then false else lexLe xs ys

def LexLeP : List Nat → List Nat → Prop := fun x y => lexLe x y = true

instance : DecidableRel LexLeP := fun x y => inferInstanceAs (Decidable (lexLe x y = true))

theorem lexLe_total : ∀ x y : List Nat, lexLe x y = true ∨ lexLe y x = true := by
  intro x
  induction x with
  | nil => intro y; left; rfl
  | cons a xs ih =>
    intro y
    cases y with
    | nil => right; rfl
    | cons b ys =>
      by_cases hab : a < b
      · left; simp [lexLe, hab]
      · by_cases hba : b < a
        · right; simp [lexLe, hba, hab]
        · rcases ih ys with h | h
          · left; simp [lexLe, hab, hba, h]
          · right; simp [lexLe, hab, hba, h]

theorem lexLe_trans : ∀ x y z : List Nat,
    lexLe x y = true → lexLe y z = true → lexLe x z = true := by
  intro x
  induction x with
  | nil => intro y z _ _; rfl
  | cons a xs ih =>
    intro y z hxy hyz
    cases y with
    | nil => simp [lexLe] at hxy
    | cons b ys =>
      cases z with
      | nil => simp [lexLe] at hyz
      | cons c zs =>
        simp only [lexLe] at hxy hyz ⊢
        by_cases hab : a < b
        · by_cases hbc : b < c
          · have hac : a < c := by omega
            simp [hac]
          · by_cases hcb : c < b
            · simp [hbc, hcb] at hyz
            · have hbc2 : b = c := by omega
              have hac : a < c := by omega
              simp [hac]
        · by_cases hba : b < a
          · simp [hab, hba] at hxy
          · have hab2 : a = b := by omega
            subst hab2
            by_cases hac : a < c
            · simp [hac]
            · by_cases hca : c < a
              · simp [hac, hca] at hyz
              · have : a = c := by omega
                subst this
                simp [hac] at hxy hyz ⊢
                exact ih ys zs hxy hyz

theorem lexLe_antisymm : ∀ x y : List Nat,
    lexLe x y = true → lexLe y x = true → x = y := by
  intro x
  induction x with
  | nil =>
    intro y _ hyx
    cases y with
    | nil => rfl
    | cons b ys => simp [lexLe] at hyx
  | cons a xs ih =>
    intro y hxy hyx
    cases y with
    | nil => simp [lexLe] at hxy
    | cons b ys =>
      simp only [lexLe] at hxy hyx
      by_cases hab : a < b
      · simp [hab, show ¬ b < a by omega] at hyx
      · by_cases hba : b < a
        · simp [hab, hba] at hxy
        · have : a = b := by omega
          subst this
          simp [hab] at hxy hyx
          rw [ih ys hxy hyx]

instance : IsTotal (List Nat) LexLeP := ⟨lexLe_total⟩

instance : IsTrans (List Nat) LexLeP := ⟨fun x y z => lexLe_trans x y z⟩

instance : IsAntisymm (List Nat) LexLeP := ⟨fun x y => lexLe_antisymm x y⟩

-- Vec::sort on the derived public keys: a stable sort; since LexLeP is a
-- total antisymmetric order, every sort produces this list (the sorted
-- permutation is unique), so insertion sort is an exact model.
def sortKeys (l : List (List Nat)) : List (List Nat) := List.insertionSort LexLeP l

inductive ScriptElem where
  | pushInt (i : Int)
  | pushKey (k : List Nat)
  | op (code : Nat)
deriving DecidableEq

def OP_CHECKMULTISIG : Nat := 174

-- OP_m <pk1> ... <pkn> OP_n OP_CHECKMULTISIG.
def buildMultisigScript (m : Int) (pks : List (List Nat)) (n : Int) : List ScriptElem :=
  (ScriptElem.pushInt m :: pks.map ScriptElem.pushKey)
    ++ [ScriptElem.pushInt n, ScriptElem.op OP_CHECKMULTISIG]

-- Multisig::derive, up to the script: derive the n child public keys, sort
-- them, build the CHECKMULTISIG script (the final wrapping into a p2wsh /
-- p2shwsh / p2sh address is an external constructor of the bitcoin crate
-- applied to this script).
def multisigDerive {K : Type} (derivePub : K → Nat → Nat → List Nat)
    (ms : Multisig K) (index : Nat) (isChange : Bool) : List ScriptElem :=
  buildMultisigScript ms.required_signatures
    (sortKeys (ms.xpub_keys.map (fun x => derivePub x (if isChange then 1 else 0) index)))
    (ms.xpub_keys.length : Int)

def scriptKeys : List ScriptElem → List (List Nat)
  | [] => []
  | .pushKey k :: r => k :: scriptKeys r
  | _ :: r => scriptKeys r

theorem scriptKeys_build (m n : Int) (pks : List (List Nat)) :
    scriptKeys (buildMultisigScript m pks n) = pks := by
  unfold buildMultisigScript
  induction pks with
  | nil => rfl
  | cons p r ih =>
    simpa [scriptKeys] using ih

/-- Claim C8: in every derived multisig script the public keys pushed
between OP_m and OP_n appear in ascending lexicographic order of their
serialized bytes (BIP67), and supplying the extended public keys in a
different order yields the identical script. -/
theorem multisig_derive_bip67 {K : Type} (derivePub : K → Nat → Nat → List Nat)
    (ms ms2 : Multisig K) (index : Nat) (isChange : Bool)
    (hrs : ms2.required_signatures = ms.required_signatures)
    (hperm : ms2.xpub_keys.Perm ms.xpub_keys) :
    (scriptKeys (multisigDerive derivePub ms index isChange)).Sorted LexLeP ∧
      multisigDerive derivePub ms2 index isChange
        = multisigDerive derivePub ms index isChange := by
  constructor
  · unfold multisigDerive
    rw [scriptKeys_build]
    exact List.sorted_insertionSort LexLeP _
  · unfold multisigDerive
    rw [hrs, hperm.length_eq]
    have hsort : sortKeys (ms2.xpub_keys.map
          (fun x => derivePub x (if isChange then 1 else 0) index))
        = sortKeys (ms.xpub_keys.map
          (fun x => derivePub x (if isChange then 1 else 0) index)) := by
      exact List.eq_of_perm_of_sorted
        (((List.perm_insertionSort LexLeP _).trans
          (hperm.map _)).trans (List.perm_insertionSort LexLeP _).symm)
        (List.sorted_insertionSort LexLeP _)
        (List.sorted_insertionSort LexLeP _)
    rw [hsort]

/-- Witness for claim C8: two keys supplied in either order produce the same
script, with the serialized keys in ascending order. -/
theorem multisig_derive_bip67_witness :
    (scriptKeys (multisigDerive (fun (k : Nat) _ _ => [k])
        ⟨S ("p2sh"), 2, [1, 2]⟩ 0 false)).Sorted LexLeP ∧
      multisigDerive (fun (k : Nat) _ _ => [k]) ⟨S ("p2sh"), 2, [2, 1]⟩ 0 false
        = multisigDerive (fun (k : Nat) _ _ => [k]) ⟨S ("p2sh"), 2, [1, 2]⟩ 0 false :=
  multisig_derive_bip67 (fun (k : Nat) _ _ => [k])
    ⟨S ("p2sh"), 2, [1, 2]⟩ ⟨S ("p2sh"), 2, [2, 1]⟩ 0 false rfl (by decide)

def validScript (st : Str) : Prop :=
  st = S ("p2wsh") ∨ st = S ("p2shwsh") ∨ st = S ("p2sh")

theorem prefixLoop_panic (k0 : Str) (pre post : List Str) (bad : Str)
    (hbad : takeBytes 4 bad = none)
    (hpre : ∀ k ∈ pre, takeBytes 4 k = takeBytes 4 k0) :
    prefixLoop k0 (pre ++ bad :: post) = .panic := by
  induction pre with
  | nil => simp [prefixLoop, hbad]
  | cons p pre2 ih =>
    have hp : takeBytes 4 p = takeBytes 4 k0 := hpre p (by simp)
    simp only [List.cons_append, prefixLoop]
    cases hk : takeBytes 4 p with
    | none => rfl
    | some s =>
      have hk0 : takeBytes 4 k0 = some s := by rw [← hp]; exact hk
      rw [hk0]
      change (if s = s then prefixLoop k0 (pre2 ++ bad :: post) else Ret.ok false) = Ret.panic
      rw [if_pos rfl]
      exact ih (fun k hk2 => hpre k (List.mem_cons_of_mem _ hk2))

/-- Claim C9, counterexample: the claim says Multisig::new panics whenever
the script type is valid, the key list is non-empty, m does not exceed n and
some key is shorter than 4 bytes; but when a prefix mismatch occurs before
the short key is reached, the all() check short-circuits and the call
returns the MixedPrefixes error instead of panicking. -/
theorem multisig_short_key_counterexample :
    multisigNew (fun _ : List Nat => (none : Option Unit)) (S ("p2sh")) 1
        [S ("aaaa"), S ("bbbb"), S ("ab")]
      = .ok (.inl MultisigError.PublicKeysWithDifferentScriptTypes) ∧
      validScript (S ("p2sh")) ∧
      (1 : Int) ≤ ([S ("aaaa"), S ("bbbb"), S ("ab")].length : Int) ∧
      takeBytes 4 (S ("ab")) = none := by
  refine ⟨by decide, ?_, by decide, by decide⟩
  unfold validScript
  decide

/-- Claim C9 (amended): Multisig::new panics instead of returning a
MultisigError whenever the script type is valid, required_signatures does
not exceed the number of keys, and some key fails the 4-byte slice
(shorter than 4 bytes or no character boundary at byte 4), provided every
key before it matches the first key's 4-byte prefix (so that the mixed-
prefix check reaches it); the slice panic precedes any decodability
check. -/
theorem multisig_short_key_panics {K : Type} (decode : List Nat → Option K)
    (st : Str) (m : Int) (pre post : List Str) (bad : Str)
    (hvalid : validScript st)
    (hm : m ≤ ((pre ++ bad :: post).length : Int))
    (hbad : takeBytes 4 bad = none)
    (hpre : ∀ k ∈ pre, takeBytes 4 k = takeBytes 4 ((pre ++ bad :: post).headD [])) :
    multisigNew decode st m (pre ++ bad :: post) = .panic := by
  unfold multisigNew
  rw [if_neg (by
    rcases hvalid with h | h | h <;> intro hcon <;>
      [exact hcon.1 h; exact hcon.2.1 h; exact hcon.2.2 h])]
  rw [if_neg (by
    intro hcon
    cases pre <;> simp at hcon)]
  rw [if_neg (by
    intro hcon
    omega)]
  rw [prefixLoop_panic ((pre ++ bad :: post).headD []) pre post bad hbad hpre]

/-- Witness for the amended claim C9: a 4-byte first key sharing its prefix
with itself followed by a 2-byte key makes Multisig::new panic. -/
theorem multisig_short_key_panics_witness :
    multisigNew (fun _ : List Nat => (none : Option Unit)) (S ("p2sh")) 1
        ([S ("aaaa")] ++ S ("ab") :: [])
      = .panic :=
  multisig_short_key_panics (fun _ : List Nat => (none : Option Unit)) (S ("p2sh")) 1
    [S ("aaaa")] [] (S ("ab"))
    (by unfold validScript; decide) (by decide) (by decide) (by decide)

def mixedPrefixes (keys : List Str) : Prop :=
  ∃ k ∈ keys, takeBytes 4 k ≠ takeBytes 4 (keys.headD [])

theorem prefixLoop_spec (k0 : Str) (l : List Str)
    (h : ∀ k ∈ l, takeBytes 4 k ≠ none) (h0 : takeBytes 4 k0 ≠ none) :
    (prefixLoop k0 l = .ok true ↔ ∀ k ∈ l, takeBytes 4 k = takeBytes 4 k0) ∧
      (prefixLoop k0 l = .ok true ∨ prefixLoop k0 l = .ok false) := by
  rcases Option.ne_none_iff_exists.mp h0 with ⟨s0, hs0⟩
  have hs0x : takeBytes 4 k0 = some s0 := hs0.symm
  induction l with
  | nil => simp [prefixLoop]
  | cons k rest ih =>
    rcases Option.ne_none_iff_exists.mp (h k (by simp)) with ⟨sk, hsk⟩
    have hskx : takeBytes 4 k = some sk := hsk.symm
    have ihr := ih (fun k2 hk2 => h k2 (List.mem_cons_of_mem _ hk2))
    rw [hs0x] at ihr
    simp only [prefixLoop, hskx, hs0x]
    by_cases he : sk = s0
    · rw [if_pos he]
      constructor
      · rw [ihr.1]
        constructor
        · intro hall k2 hk2
          rcases List.mem_cons.mp hk2 with rfl | hk3
          · rw [hskx, he]
          · exact hall k2 hk3
        · intro hall k2 hk2
          exact hall k2 (List.mem_cons_of_mem _ hk2)
      · exact ihr.2
    · rw [if_neg he]
      constructor
      · constructor
        · intro hcon
          cases hcon
        · intro hall
          exfalso
          apply he
          have hthis := hall k (by simp)
          rw [hskx] at hthis
          exact Option.some_injective _ hthis
      · right; rfl

theorem collectXpubs_spec {K : Type} (decode : List Nat → Option K) (l : List Str)
    (hpay : ∀ k ∈ l, ∀ d, from_check k = some d → 4 ≤ d.length)
    (hdec : ∀ k ∈ l, ∀ d, from_check k = some d →
      decode (hex_to_bytes (S ("0488b21e")) ++ d.drop 4) ≠ none) :
    ∃ xs, collectXpubs decode l = .ok xs ∧ xs.length ≤ l.length ∧
      (xs.length = l.length ↔ ∀ k ∈ l, from_check k ≠ none) := by
  induction l with
  | nil => exact ⟨[], rfl, le_refl 0, by simp⟩
  | cons k rest ih =>
    rcases ih (fun k2 hk2 => hpay k2 (List.mem_cons_of_mem _ hk2))
      (fun k2 hk2 => hdec k2 (List.mem_cons_of_mem _ hk2)) with ⟨xs, hxs, hlen, hiff⟩
    cases hfc : from_check k with
    | none =>
      refine ⟨xs, ?_, ?_, ?_⟩
      · simp only [collectXpubs, convert_to_xpub, hfc]
        exact hxs
      · exact Nat.le_succ_of_le hlen
      · constructor
        · intro hcon
          exfalso
          simp at hcon
          omega
        · intro hall
          exact absurd hfc (hall k (by simp))
    | some d =>
      have h4 : ¬ d.length < 4 := not_lt.mpr (hpay k (by simp) d hfc)
      rcases Option.ne_none_iff_exists.mp (hdec k (by simp) d hfc) with ⟨x, hx⟩
      refine ⟨x :: xs, ?_, by simpa using hlen, ?_⟩
      · simp only [collectXpubs, convert_to_xpub, hfc, if_neg h4, ← hx, hxs]
      · simp only [List.length_cons, Nat.succ_inj]
        rw [hiff]
        constructor
        · intro hall k2 hk2
          rcases List.mem_cons.mp hk2 with rfl | hk3
          · rw [hfc]; exact Option.noConfusion
          · exact hall k2 hk3
        · intro hall k2 hk2
          exact hall k2 (List.mem_cons_of_mem _ hk2)

set_option maxRecDepth 100000 in
/-- Claim C7, counterexample: a key that fails base58check decoding is in
the claim's rejection list, but when it is also shorter than 4 bytes
Multisig::new panics in the prefix check instead of rejecting with an
error. -/
theorem multisig_rejections_counterexample :
    multisigNew (fun _ : List Nat => (none : Option Unit)) (S ("p2sh")) 1 [S ("ab")]
      = .panic ∧ from_check (S ("ab")) = none ∧ validScript (S ("p2sh")) := by
  refine ⟨by decide, by decide, ?_⟩
  unfold validScript
  decide

set_option maxRecDepth 1000000 in
/-- Claim C7 (amended): provided every key is at least 4 bytes long with a
character boundary at byte 4 (otherwise the prefix check panics, see C9) and
every base58check-decodable key has a payload of at least 4 bytes that
ExtendedPubKey::decode accepts (otherwise an unwrap panics), Multisig::new
rejects with an error exactly when the script type is not one of p2wsh,
p2shwsh, p2sh, or the key list is empty, or required_signatures exceeds the
number of keys, or the keys have mixed 4-byte prefixes, or some key fails
base58check decoding; and the Core API surfaces every such rejection as
InvalidArgs. -/
theorem multisig_new_err_iff {K : Type} (decode : List Nat → Option K)
    (st : Str) (m : Int) (keys : List Str)
    (hslice : ∀ k ∈ keys, takeBytes 4 k ≠ none)
    (hpay : ∀ k ∈ keys, ∀ d, from_check k = some d → 4 ≤ d.length)
    (hdec : ∀ k ∈ keys, ∀ d, from_check k = some d →
      decode (hex_to_bytes (S ("0488b21e")) ++ d.drop 4) ≠ none) :
    ((∃ e, multisigNew decode st m keys = .ok (.inl e)) ↔
      (¬ validScript st ∨ keys = [] ∨ (keys.length : Int) < m ∨ mixedPrefixes keys ∨
        ∃ k ∈ keys, from_check k = none)) ∧
      ∀ e, multisigNew decode st m keys = .ok (.inl e) →
        add_addresses_from_multisig_check decode st m keys = .ok (some .InvalidArgs) := by
  have hapi : ∀ e, multisigNew decode st m keys = .ok (.inl e) →
      add_addresses_from_multisig_check decode st m keys = .ok (some .InvalidArgs) := by
    intro e he
    unfold add_addresses_from_multisig_check
    rw [he]
  refine ⟨?_, hapi⟩
  unfold multisigNew
  by_cases hv : validScript st
  · rw [if_neg (by
      rcases hv with h | h | h <;> intro hcon <;>
        [exact hcon.1 h; exact hcon.2.1 h; exact hcon.2.2 h])]
    by_cases hemp : keys = []
    · rw [if_pos hemp]
      simp [hemp]
    · rw [if_neg hemp]
      by_cases hm : m > (keys.length : Int)
      · rw [if_pos hm]
        constructor
        · intro _
          right; right; left
          omega
        · intro _
          exact ⟨.InvalidSignatureNumber, rfl⟩
      · rw [if_neg hm]
        have hh0 : keys.headD [] ∈ keys := by
          cases keys with
          | nil => exact absurd rfl hemp
          | cons a r => simp
        have hps := prefixLoop_spec (keys.headD []) keys hslice (hslice _ hh0)
        rcases hps.2 with hpt | hpf
        · have hall := hps.1.mp hpt
          rcases collectXpubs_spec decode keys hpay hdec with ⟨xs, hxs, hlen, hiff⟩
          simp only [hpt, hxs]
          by_cases hx : (xs.length : Int) ≠ (keys.length : Int)
          · rw [if_pos hx]
            constructor
            · intro _
              right; right; right; right
              have hnall : ¬ ∀ k ∈ keys, from_check k ≠ none := by
                rw [← hiff]
                omega
              push_neg at hnall
              rcases hnall with ⟨k, hk, hfc⟩
              exact ⟨k, hk, by simpa using hfc⟩
            · intro _
              exact ⟨.InvalidXPubKeysNumber, rfl⟩
          · rw [if_neg hx]
            constructor
            · rintro ⟨e, he⟩
              simp at he
            · intro hcon
              exfalso
              rcases hcon with h | h | h | h | h
              · exact h hv
              · exact hemp h
              · omega
              · rcases h with ⟨k, hk, hne⟩
                exact hne (hall k hk)
              · rcases h with ⟨k, hk, hfc⟩
                have hxl : xs.length = keys.length := by omega
                exact (hiff.mp hxl) k hk hfc
        · simp only [hpf]
          constructor
          · intro _
            right; right; right; left
            have hnall : ¬ ∀ k ∈ keys, takeBytes 4 k = takeBytes 4 (keys.headD []) := by
              intro hcon
              rw [hps.1.mpr hcon] at hpf
              cases hpf
            push_neg at hnall
            show ∃ k ∈ keys, takeBytes 4 k ≠ takeBytes 4 (keys.headD [])
            exact hnall
          · intro _
            exact ⟨.PublicKeysWithDifferentScriptTypes, rfl⟩
  · rw [if_pos (by
      unfold validScript at hv
      push_neg at hv
      exact ⟨hv.1, hv.2.1, hv.2.2⟩)]
    constructor
    · intro _
      left
      exact hv
    · intro _
      exact ⟨.InvalidScriptType, rfl⟩

set_option maxRecDepth 1000000 in
/-- Witness for the amended claim C7 at two concrete base58check-valid keys
sharing a prefix, with a decoder accepting every payload. -/
theorem multisig_new_err_iff_witness :
    ((∃ e, multisigNew (fun _ : List Nat => some ()) (S ("p2sh")) 2
        [S ("kA3B33GVuqT"), S ("kA3B33GVuqT")] = .ok (.inl e)) ↔
      (¬ validScript (S ("p2sh")) ∨ ([S ("kA3B33GVuqT"), S ("kA3B33GVuqT")] : List Str) = [] ∨
        (([S ("kA3B33GVuqT"), S ("kA3B33GVuqT")] : List Str).length : Int) < 2 ∨
        mixedPrefixes [S ("kA3B33GVuqT"), S ("kA3B33GVuqT")] ∨
        ∃ k ∈ ([S ("kA3B33GVuqT"), S ("kA3B33GVuqT")] : List Str), from_check k = none)) ∧
      ∀ e, multisigNew (fun _ : List Nat => some ()) (S ("p2sh")) 2
          [S ("kA3B33GVuqT"), S ("kA3B33GVuqT")] = .ok (.inl e) →
        add_addresses_from_multisig_check (fun _ : List Nat => some ()) (S ("p2sh")) 2
          [S ("kA3B33GVuqT"), S ("kA3B33GVuqT")] = .ok (some .InvalidArgs) :=
  multisig_new_err_iff (fun _ : List Nat => some ()) (S ("p2sh")) 2
    [S ("kA3B33GVuqT"), S ("kA3B33GVuqT")]
    (by decide)
    (by
      intro k hk d hd
      have hfc : from_check k = some [1, 2, 3, 4, 5] := by
        rcases List.mem_cons.mp hk with rfl | hk2
        · decide
        · rcases List.mem_cons.mp hk2 with rfl | hk3
          · decide
          · cases hk3
      rw [hfc] at hd
      injection hd with hd2
      rw [← hd2]
      decide)
    (by
      intro k hk d hd
      simp)

-- ### from_singlesig and CoreApi::add_addresses_from_singlesig

-- One child derivation per index in from..=to; ChildNumber::from_normal_idx
-- panics (unwrap) for indices with the hardened bit, i.e. at least 2^31.
-- p2pkhA always yields an address; the p2shwpkh / p2wpkh constructors of
-- the bitcoin crate are fallible and a failure is silently skipped; a
-- prefix other than xpub, ypub, zpub falls into the empty match arm.
def singlesigLoop {K : Type} (derivePub : K → Nat → Nat → List Nat)
    (p2pkhA : List Nat → Str) (p2shwpkhA p2wpkhA : List Nat → Option Str)
    (xpub : K) (pfx : Str) (change : Nat) : List Nat → Ret (List Str)
  | [] => .ok []
  | i :: rest =>
    if 2147483648 ≤ i then .panic
    else
      match singlesigLoop derivePub p2pkhA p2shwpkhA p2wpkhA xpub pfx change rest with
      | .panic => .panic
      | .ok acc =>
        .ok (match
          (if pfx = S ("xpub") then some (p2pkhA (derivePub xpub change i))
           else if pfx = S ("ypub") then p2shwpkhA (derivePub xpub change i)
           else if pfx = S ("zpub") then p2wpkhA (derivePub xpub change i)
           else none) with
        | some a => a :: acc
        | none => acc)

def childRange (from_index to_index : Nat) : List Nat :=
  List.range' from_index (to_index + 1 - from_index)

-- address::from_singlesig: reject keys failing base58check (None), slice
-- the 4-byte prefix, decode the converted payload (unwrap: a failure
-- panics), then derive change/i for each index in the range.
def from_singlesig {K : Type} (decode : List Nat → Option K)
    (derivePub : K → Nat → Nat → List Nat)
    (p2pkhA : List Nat → Str) (p2shwpkhA p2wpkhA : List Nat → Option Str)
    (public_key : Str) (from_index to_index : Nat) (is_change : Bool) :
    Ret (Option (List Str)) :=
  match convert_to_xpub public_key with
  | .panic => .panic
  | .ok none => .ok none
  | .ok (some bytes) =>
    match takeBytes 4 public_key with
    | none => .panic
    | some pfx =>
      match decode bytes with
      | none => .panic
      | some xpub =>
        match singlesigLoop derivePub p2pkhA p2shwpkhA p2wpkhA xpub pfx
            (if is_change then 1 else 0) (childRange from_index to_index) with
        | .panic => .panic
        | .ok addrs => .ok (some addrs)

-- CoreStore::create_address: add the token to the record's set if absent,
-- creating the record when needed.
def create_address (token address : Str) (st : CoreStoreState) : CoreStoreState :=
  match lookupKV address st.address with
  | some record =>
    if record.tokens.contains token then st
    else { st with address := putKV address ⟨record.tokens ++ [token]⟩ st.address }
  | none => { st with address := putKV address ⟨[token]⟩ st.address }

-- CoreApi::add_addresses: silently skip entries is_address rejects.
def add_addresses (isAddr : Str → Bool) (token : Str) (addrs : List Str)
    (st : CoreStoreState) : CoreStoreState :=
  addrs.foldl (fun acc a => if isAddr a then create_address token a acc else acc) st

-- CoreApi::add_addresses_from_singlesig: a None from from_singlesig is
-- InvalidArgs; otherwise the addresses are bulk-added and the call
-- succeeds.
def add_addresses_from_singlesig {K : Type} (decode : List Nat → Option K)
    (derivePub : K → Nat → Nat → List Nat)
    (p2pkhA : List Nat → Str) (p2shwpkhA p2wpkhA : List Nat → Option Str)
    (isAddr : Str → Bool) (token : Str) (public_key : Str)
    (from_index to_index : Nat) (is_change : Bool) (st : CoreStoreState) :
    Ret (Except ApiError CoreStoreState) :=
  match from_singlesig decode derivePub p2pkhA p2shwpkhA p2wpkhA public_key
      from_index to_index is_change with
  | .panic => .panic
  | .ok none => .ok (.error .InvalidArgs)
  | .ok (some addrs) => .ok (.ok (add_addresses isAddr token addrs st))

theorem singlesigLoop_foreign_prefix {K : Type} (derivePub : K → Nat → Nat → List Nat)
    (p2pkhA : List Nat → Str) (p2shwpkhA p2wpkhA : List Nat → Option Str)
    (xpub : K) (pfx : Str) (change : Nat) (idxs : List Nat)
    (hpfx : pfx ≠ S ("xpub") ∧ pfx ≠ S ("ypub") ∧ pfx ≠ S ("zpub"))
    (hidx : ∀ i ∈ idxs, i < 2147483648) :
    singlesigLoop derivePub p2pkhA p2shwpkhA p2wpkhA xpub pfx change idxs = .ok [] := by
  induction idxs with
  | nil => rfl
  | cons i rest ih =>
    have hi : ¬ 2147483648 ≤ i := not_le.mpr (hidx i (by simp))
    have hr := ih (fun j hj => hidx j (List.mem_cons_of_mem _ hj))
    simp only [singlesigLoop, if_neg hi, hr, if_neg hpfx.1, if_neg hpfx.2.1,
      if_neg hpfx.2.2]

set_option maxRecDepth 1000000 in
/-- Claim C10, counterexample: the claim promises Some with an empty list
for every index range, but a range containing an index with the hardened
bit (at least 2^31) panics at ChildNumber::from_normal_idx(...).unwrap()
before the prefix is even consulted, even for a key that passes base58check
and decodes. -/
theorem singlesig_hardened_index_counterexample :
    from_singlesig (fun _ : List Nat => some ()) (fun _ _ _ => ([] : List Nat))
        (fun _ => ([] : Str)) (fun _ => none) (fun _ => none)
        (S ("kA3B33GVuqT")) 2147483648 2147483648 false = .panic ∧
      from_check (S ("kA3B33GVuqT")) = some [1, 2, 3, 4, 5] ∧
      takeBytes 4 (S ("kA3B33GVuqT")) = some (S ("kA3B")) ∧
      S ("kA3B") ≠ S ("xpub") ∧ S ("kA3B") ≠ S ("ypub") ∧ S ("kA3B") ≠ S ("zpub") := by
  refine ⟨by decide, by decide, by decide, by decide, by decide, by decide⟩

/-- Claim C10 (amended): for a key that passes base58check decoding with a
payload of at least 4 bytes that ExtendedPubKey::decode accepts, whose
first four characters are not xpub, ypub or zpub, from_singlesig returns
Some with an empty address list for every index range whose indices are
below 2^31 (a range reaching 2^31 panics instead), and consequently
add_addresses_from_singlesig returns success while adding no addresses. -/
theorem singlesig_foreign_prefix_empty {K : Type} (decode : List Nat → Option K)
    (derivePub : K → Nat → Nat → List Nat)
    (p2pkhA : List Nat → Str) (p2shwpkhA p2wpkhA : List Nat → Option Str)
    (isAddr : Str → Bool) (token : Str) (public_key : Str)
    (from_index to_index : Nat) (is_change : Bool) (st : CoreStoreState)
    (d : List Nat) (hfc : from_check public_key = some d) (hd4 : ¬ d.length < 4)
    (x : K) (hx : decode (hex_to_bytes (S ("0488b21e")) ++ d.drop 4) = some x)
    (pfx : Str) (hpf : takeBytes 4 public_key = some pfx)
    (hpfx : pfx ≠ S ("xpub") ∧ pfx ≠ S ("ypub") ∧ pfx ≠ S ("zpub"))
    (hidx : ∀ i ∈ childRange from_index to_index, i < 2147483648) :
    from_singlesig decode derivePub p2pkhA p2shwpkhA p2wpkhA public_key
        from_index to_index is_change = .ok (some []) ∧
      add_addresses_from_singlesig decode derivePub p2pkhA p2shwpkhA p2wpkhA
        isAddr token public_key from_index to_index is_change st = .ok (.ok st) := by
  have hconv : convert_to_xpub public_key
      = .ok (some (hex_to_bytes (S ("0488b21e")) ++ d.drop 4)) := by
    unfold convert_to_xpub
    simp only [hfc]
    rw [if_neg hd4]
  have hloop := singlesigLoop_foreign_prefix derivePub p2pkhA p2shwpkhA p2wpkhA x pfx
    (if is_change then 1 else 0) (childRange from_index to_index) hpfx hidx
  have hmain : from_singlesig decode derivePub p2pkhA p2shwpkhA p2wpkhA public_key
      from_index to_index is_change = .ok (some []) := by
    unfold from_singlesig
    simp only [hconv, hpf, hx, hloop]
  refine ⟨hmain, ?_⟩
  unfold add_addresses_from_singlesig
  rw [hmain]
  rfl

set_option maxRecDepth 1000000 in
/-- Witness for the amended claim C10 at a concrete base58check-valid key
with prefix kA3B and the range 0..=1. -/
theorem singlesig_foreign_prefix_empty_witness :
    from_singlesig (fun _ : List Nat => some ()) (fun _ _ _ => ([] : List Nat))
        (fun _ => ([] : Str)) (fun _ => none) (fun _ => none)
        (S ("kA3B33GVuqT")) 0 1 false = .ok (some []) ∧
      add_addresses_from_singlesig (fun _ : List Nat => some ())
        (fun _ _ _ => ([] : List Nat)) (fun _ => ([] : Str)) (fun _ => none)
        (fun _ => none) (fun _ => true) (S ("tok")) (S ("kA3B33GVuqT")) 0 1 false
        emptyStore = .ok (.ok emptyStore) :=
  singlesig_foreign_prefix_empty (fun _ : List Nat => some ())
    (fun _ _ _ => ([] : List Nat)) (fun _ => ([] : Str)) (fun _ => none)
    (fun _ => none) (fun _ => true) (S ("tok")) (S ("kA3B33GVuqT")) 0 1 false
    emptyStore [1, 2, 3, 4, 5] (by decide) (by decide) () (by decide)
    (S ("kA3B")) (by decide) (by decide) (by decide)

end BPNS
